import Mathlib

/-!
Shallow embedding of `covid_seattle/model_dist.py` and
`covid_seattle/parameters.py` (davidthaler/covasim), together with proofs
settling the specification claims about the parameter store, the person
state machine, the day-by-day run loop, interventions and testing.

Machine reals are modelled as rationals.  The pseudorandom stream is
modelled abstractly: a run carries a stream `g : Nat -> Nat` and a cursor
`rix`; every stochastic primitive of the source (Poisson contact counts,
Bernoulli trials, delay samples, age and sex draws) consumes one value of
the stream, in the exact order the source consumes its draws.  Fallible
dictionary accesses and index accesses return `Except Err`.
-/

deriving instance DecidableEq for Except

namespace Covasim

/-- Errors mirroring the Python exceptions the source can raise: the plain
dict KeyError from `ParsObj.__getitem__` (line 43-45, no suggestion), the
suggestion-carrying KeyError from `ParsObj.__setitem__` (line 47-59), an
IndexError from indexed person access (`get_person`), the
ZeroDivisionError the unintervene division would raise when
`intervention_eff` is 1, and the AttributeError the testing block would
raise on the hard-coded list (line 303, `daily_tests.iloc`). -/
inductive Err where
  | keyNotFound (key : String)
  | keyNotFoundSuggest (key : String) (suggestion : Option String)
  | indexErr (i : Nat)
  | zeroDivisionErr
  | testingPathErr
  deriving DecidableEq, Repr

/-- Does an error carry a nearest-match suggestion (only the KeyError
raised by `ParsObj.__setitem__` does)? -/
def errHasSuggestion : Err → Bool
  | .keyNotFoundSuggest _ (some _) => true
  | _ => false

/-- The parameter store: an insertion-ordered association list, mirroring
the Python dict `self.pars`. -/
abbrev Params := List (String × ℚ)

/-- Keys of the store, in insertion order. -/
def parKeys (ps : Params) : List String := ps.map (·.1)

/-- A computable inverse on the rationals (the library inverse is blocked
from definitional unfolding, which would prevent evaluating runs inside
proofs); `qinv_eq` identifies it with the field inverse. -/
def qinv (a : ℚ) : ℚ := mkRat (Int.sign a.num * a.den) a.num.natAbs

/-- Computable multiplication on the rationals, identified with `*` by
`qmul_eq`. -/
def qmul (a b : ℚ) : ℚ := mkRat (a.num * b.num) (a.den * b.den)

/-- Field division on the rationals via `qinv`, used wherever the source
divides two machine reals; `qdiv_eq` identifies it with `/`. -/
def qdiv (a b : ℚ) : ℚ := qmul a (qinv b)

theorem qinv_eq (a : ℚ) : qinv a = a⁻¹ := by
  rw [Rat.inv_def', qinv, Rat.mkRat_eq_divInt]
  rcases lt_trichotomy a.num 0 with h | h | h
  · rw [Int.sign_eq_neg_one_of_neg h]
    have hab : (a.num.natAbs : ℤ) = -a.num :=
      Int.ofNat_natAbs_of_nonpos (le_of_lt h)
    rw [hab, show (-1 : ℤ) * a.den = -(a.den : ℤ) by ring]
    exact Rat.neg_divInt_neg _ _
  · rw [h]
    simp
  · rw [Int.sign_eq_one_of_pos h, Int.natAbs_of_nonneg (le_of_lt h), one_mul]

/-- Computable addition on the rationals (identified with `+` by
`qadd_eq`; the library operations are blocked from definitional
unfolding, which would prevent evaluating runs inside proofs). -/
def qadd (a b : ℚ) : ℚ := mkRat (a.num * b.den + b.num * a.den) (a.den * b.den)

/-- Computable negation on the rationals (see `qneg_eq`). -/
def qneg (a : ℚ) : ℚ := mkRat (-a.num) a.den

/-- Computable subtraction on the rationals (see `qsub_eq`). -/
def qsub (a b : ℚ) : ℚ := qadd a (qneg b)

theorem qadd_eq (a b : ℚ) : qadd a b = a + b := by
  rw [qadd, Rat.mkRat_eq_divInt]
  conv_rhs => rw [← Rat.num_divInt_den a, ← Rat.num_divInt_den b]
  rw [Rat.divInt_add_divInt _ _ (by exact_mod_cast a.den_nz)
    (by exact_mod_cast b.den_nz)]
  push_cast
  ring_nf

theorem qmul_eq (a b : ℚ) : qmul a b = a * b := by
  rw [qmul, Rat.mkRat_eq_divInt]
  conv_rhs => rw [← Rat.num_divInt_den a, ← Rat.num_divInt_den b]
  rw [Rat.divInt_mul_divInt _ _ (by exact_mod_cast a.den_nz)
    (by exact_mod_cast b.den_nz)]
  push_cast
  ring_nf

theorem qneg_eq (a : ℚ) : qneg a = -a := by
  rw [qneg, Rat.mkRat_eq_divInt, ← Rat.neg_divInt, Rat.num_divInt_den]

theorem qsub_eq (a b : ℚ) : qsub a b = a - b := by
  rw [qsub, qadd_eq, qneg_eq, sub_eq_add_neg]

theorem qdiv_eq (a b : ℚ) : qdiv a b = a / b := by
  rw [qdiv, qmul_eq, qinv_eq, div_eq_mul_inv]

/-- ParsObj.__getitem__ (model_dist.py line 43-45): `return self.pars[key]`,
a plain dict lookup whose failure is a bare KeyError with no suggestion. -/
def lookupPar : Params → String → Except Err ℚ
  | [], k => .error (.keyNotFound k)
  | (k', v) :: rest, k => if k = k' then .ok v else lookupPar rest k

/-- Levenshtein edit distance. Modelled from the spec: the external
`sc.suggest` helper is specified as an edit-distance based nearest-match
suggestion; its exact implementation lives outside this repository. -/
def lev : List Char → List Char → Nat
  | [], bs => bs.length
  | a :: as, [] => (a :: as).length
  | a :: as, b :: bs =>
    if a = b then lev as bs
    else 1 + min (lev as (b :: bs)) (min (lev (a :: as) bs) (lev as bs))
termination_by a b => a.length + b.length

/-- Modelled from the spec: `sc.suggest(key, keys)` (external sciris
helper used at model_dist.py line 52) returns a nearest valid key by edit
distance, or nothing when there are no keys. -/
def suggest (k : String) (keys : List String) : Option String :=
  keys.foldl
    (fun best cand =>
      match best with
      | none => some cand
      | some b => if lev k.data cand.data < lev k.data b.data then some cand else best)
    none

/-- Is a key present in the store? -/
def hasKey (ps : Params) (k : String) : Bool := ps.any (fun kv => kv.1 = k)

/-- Replace the value of the first binding of a key, leaving order intact. -/
def replacePar : Params → String → ℚ → Params
  | [], _, _ => []
  | (k', v') :: rest, k, v =>
    if k = k' then (k', v) :: rest else (k', v') :: replacePar rest k v

/-- ParsObj.__setitem__ (model_dist.py line 47-59): overwrite an existing
key in place; an absent key raises a KeyError carrying the nearest-match
suggestion, and no key is ever created. -/
def setPar (ps : Params) (k : String) (v : ℚ) : Except Err Params :=
  if hasKey ps k then .ok (replacePar ps k v)
  else .error (.keyNotFoundSuggest k (suggest k (parKeys ps)))

/-- One step of Python `dict.update`: overwrite an existing binding in
place, or append a genuinely new key at the end. -/
def updateOne (ps : Params) (kv : String × ℚ) : Params :=
  if hasKey ps kv.1 then replacePar ps kv.1 kv.2 else ps ++ [kv]

/-- ParsObj.update_pars (model_dist.py line 61-69) on an already
constructed store: `self.pars.update(pars)`, i.e. Python dict.update. -/
def updatePars (ps : Params) (new : List (String × ℚ)) : Params :=
  new.foldl updateOne ps

/-- int() conversion of a parameter value as used for `n`, `n_infected`
and `n_days` (nonnegative in every use). -/
def qToNat (q : ℚ) : Nat := q.floor.toNat

/-- A single person (Person.__init__, model_dist.py line 76-97).  `uid`
models the uuid string by the creation index.  The run loop writes
`person.died` (line 274), which in Python creates a fresh attribute
distinct from the `dead` flag initialised in the constructor; both fields
are kept to mirror that. -/
structure Person where
  uid : Nat
  age : ℚ
  sex : Nat
  alive : Bool := true
  susceptible : Bool := true
  exposed : Bool := false
  infectious : Bool := false
  diagnosed : Bool := false
  recovered : Bool := false
  dead : Bool := false
  died : Bool := false
  date_exposed : Option Nat := none
  date_infectious : Option Nat := none
  date_diagnosed : Option Nat := none
  date_recovered : Option Nat := none
  date_died : Option Nat := none
  deriving DecidableEq, Repr

instance : Inhabited Person := ⟨{ uid := 0, age := 0, sex := 0 }⟩

/-- Full simulation state.  The per-metric result rows are arrays of
length `npts` filled in by `+=` writes, as in `init_results`
(model_dist.py line 140-148).  `rix` is the cursor into the pseudorandom
stream; the stream itself is passed to each function separately so that
states stay decidable data. -/
structure SimSt where
  pars : Params
  people : List Person
  rix : Nat
  testProbs : List (Nat × ℚ) := []
  r_n_susceptible : List ℚ := []
  r_n_exposed : List ℚ := []
  r_n_infectious : List ℚ := []
  r_n_recovered : List ℚ := []
  r_infections : List ℚ := []
  r_tests : List ℚ := []
  r_diagnoses : List ℚ := []
  r_recoveries : List ℚ := []
  r_deaths : List ℚ := []
  transtree : List (Nat × Nat × Nat) := []
  deriving DecidableEq, Repr

/-- Consume one value of the pseudorandom stream. -/
def drawNat (g : Nat → Nat) (σ : SimSt) : Nat × SimSt :=
  (g σ.rix, { σ with rix := σ.rix + 1 })

/-- Modelled from the spec: a uniform draw on the unit interval obtained
from one stream value (the external `cov_ut.bt` Bernoulli helper compares
such a draw with the success probability). -/
def unitQ (k : Nat) : ℚ := mkRat (k % 1000 : Nat) 1000

/-- Modelled from the spec: `cov_ut.bt(p)` (external covid_abm helper), a
Bernoulli trial with success probability `p`; consumes one draw. -/
def btDraw (g : Nat → Nat) (σ : SimSt) (p : ℚ) : Bool × SimSt :=
  let (k, σ') := drawNat g σ
  (decide (unitQ k < p), σ')

/-- Modelled from the spec: `cov_ut.pt(lam)` (external covid_abm helper),
a Poisson draw of a nonnegative contact count; consumes one draw. -/
def ptDraw (g : Nat → Nat) (σ : SimSt) (_lam : ℚ) : Nat × SimSt :=
  drawNat g σ

/-- Modelled from the spec: `cov_ut.sample(dist)` (external covid_abm
helper), a nonnegative integer delay sample; consumes one draw. -/
def sampleDraw (g : Nat → Nat) (σ : SimSt) (_dist : ℚ) : Nat × SimSt :=
  drawNat g σ

/-- Modelled from the spec: `round(pl.normal(mean, std))` used for the
death delay (model_dist.py line 208), a nonnegative integer day delay;
consumes one draw. -/
def normalRoundDraw (g : Nat → Nat) (σ : SimSt) (_mean _std : ℚ) : Nat × SimSt :=
  drawNat g σ

/-- Modelled from the spec: `pl.randn()` used for multiplicative noise in
`single_run` (line 503); one draw mapped into a signed rational. -/
def randnDraw (g : Nat → Nat) (σ : SimSt) : ℚ × SimSt :=
  let (k, σ') := drawNat g σ
  (qdiv (qsub ((k % 2001 : Nat) : ℚ) 1000) 1000, σ')

/-- Modelled from the spec: `cov_ut.choose_people(max_ind, n)` (external
covid_abm helper): `n` partner indices below `max_ind`, one draw each. -/
def chooseDraws (g : Nat → Nat) (maxInd : Nat) : Nat → SimSt → List Nat × SimSt
  | 0, σ => ([], σ)
  | n + 1, σ =>
    let (k, σ1) := drawNat g σ
    let (rest, σ2) := chooseDraws g maxInd n σ1
    (k % maxInd :: rest, σ2)

/-- Modelled from the spec: `get_age_sex` with `use_data` falsy
(parameters.py line 49-63): one draw for the binary sex, one for the age
clamped into 0..99.  The sex draw comes first, as in the source. -/
def ageSexDraw (g : Nat → Nat) (σ : SimSt) : (ℚ × Nat) × SimSt :=
  let (s, σ1) := drawNat g σ
  let (a, σ2) := drawNat g σ1
  (((min a 99 : Nat), s % 2), σ2)

/-- `results[key][t] += v` on a zero-initialised numpy row. -/
def bump (l : List ℚ) (t : Nat) (v : ℚ) : List ℚ :=
  l.set t (qadd (l.getD t 0) v)

/-- Python truthiness-guarded date comparison
`person.date_x and t >= person.date_x` (model_dist.py lines 270 and 278):
a date of `None`, and also a date equal to day 0, are falsy. -/
def dateTrig (o : Option Nat) (t : Nat) : Bool :=
  match o with
  | none => false
  | some d => d ≠ 0 && d ≤ t

/-- Sim.infect_person (model_dist.py line 194-216).  The target, already
known to be susceptible at the call site, is stamped exposed at day `t`;
the incubation sample fixes `date_infectious`; one Bernoulli trial at the
case fatality rate decides between a death day (`t` + rounded normal
delay) and a recovery day (`date_infectious` + duration sample).  The
transmission tree records (target uid, source uid, day). -/
def infectPerson (g : Nat → Nat) (σ : SimSt) (srcUid tgtIdx t : Nat) :
    Except Err SimSt :=
  let tgt0 := σ.people.getD tgtIdx default
  let tgt1 := { tgt0 with susceptible := false, exposed := true,
                          date_exposed := some t }
  match lookupPar σ.pars "incub" with
  | .error e => .error e
  | .ok incMean =>
    let (inc, σ1) := sampleDraw g σ incMean
    let tgt2 := { tgt1 with date_infectious := some (t + inc) }
    match lookupPar σ1.pars "cfr" with
    | .error e => .error e
    | .ok cfr =>
      let (dieB, σ2) := btDraw g σ1 cfr
      if dieB then
        match lookupPar σ2.pars "timetodie" with
        | .error e => .error e
        | .ok ttd =>
          match lookupPar σ2.pars "timetodie_std" with
          | .error e => .error e
          | .ok ttds =>
            let (dd, σ3) := normalRoundDraw g σ2 ttd ttds
            let tgt3 := { tgt2 with date_died := some (t + dd) }
            .ok { σ3 with people := σ3.people.set tgtIdx tgt3,
                          transtree := (tgt3.uid, srcUid, t) :: σ3.transtree }
      else
        match lookupPar σ2.pars "dur" with
        | .error e => .error e
        | .ok durMean =>
          let (du, σ3) := sampleDraw g σ2 durMean
          let tgt3 := { tgt2 with date_recovered := some ((t + inc) + du) }
          .ok { σ3 with people := σ3.people.set tgtIdx tgt3,
                        transtree := (tgt3.uid, srcUid, t) :: σ3.transtree }

/-- The inner contact loop (model_dist.py line 287-295): for each chosen
index, one Bernoulli exposure trial at `r0 / dur / contacts`; on success
the target person is fetched (`get_person`) and, only if susceptible,
counted as an infection and infected. -/
def contactLoop (g : Nat → Nat) (t srcUid : Nat) :
    List Nat → SimSt → Except Err SimSt
  | [], σ => .ok σ
  | ind :: rest, σ =>
    match lookupPar σ.pars "r0" with
    | .error e => .error e
    | .ok r0 =>
      match lookupPar σ.pars "dur" with
      | .error e => .error e
      | .ok du =>
        match lookupPar σ.pars "contacts" with
        | .error e => .error e
        | .ok co =>
          let (expB, σ1) := btDraw g σ (qdiv (qdiv r0 du) co)
          if expB then
            if ind < σ1.people.length then
              let tgt := σ1.people.getD ind default
              if tgt.susceptible then
                let σ2 := { σ1 with r_infections := bump σ1.r_infections t 1 }
                match infectPerson g σ2 srcUid ind t with
                | .error e => .error e
                | .ok σ3 => contactLoop g t srcUid rest σ3
              else contactLoop g t srcUid rest σ1
            else .error (.indexErr ind)
          else contactLoop g t srcUid rest σ1

/-- The testing-probability bookkeeping of the person loop (model_dist.py
line 252-256): every non-susceptible person gets a weight — the
symptomatic multiplier if currently infectious (read before the exposed
block may promote them), else 1. -/
def tpStep (σ : SimSt) (p : Person) : Except Err SimSt :=
  if p.infectious then
    match lookupPar σ.pars "symptomatic" with
    | .error e => .error e
    | .ok sy => .ok { σ with testProbs := (p.uid, sy) :: σ.testProbs }
  else .ok { σ with testProbs := (p.uid, 1) :: σ.testProbs }

/-- The exposed block (model_dist.py line 258-264): count exposed people,
and promote to infectious those whose infectious day has arrived. -/
def expoStep (t i : Nat) (σ : SimSt) (p : Person) : Person × SimSt :=
  if p.exposed then
    let σe := { σ with r_n_exposed := bump σ.r_n_exposed t 1 }
    if !p.infectious && decide (p.date_infectious.getD 0 ≤ t) then
      let p' := { p with infectious := true }
      (p', { σe with people := σe.people.set i p' })
    else (p, σe)
  else (p, σ)

/-- The death check (model_dist.py line 269-275): a triggered death day
clears the exposed, infectious and recovered flags, sets the (fresh)
`died` attribute and counts a death. -/
def deathStep (t i : Nat) (σ : SimSt) (p : Person) : Person × SimSt :=
  if dateTrig p.date_died t then
    let p' := { p with exposed := false, infectious := false,
                       recovered := false, died := true }
    (p', { σ with people := σ.people.set i p',
                  r_deaths := bump σ.r_deaths t 1 })
  else (p, σ)

/-- The recovery check and its else branch (model_dist.py line 277-295):
a triggered recovery day resolves the person; otherwise the person is
counted infectious, a Poisson contact count is drawn, partners are chosen
and the contact loop runs. -/
def recovOrContacts (g : Nat → Nat) (t i : Nat) (σ : SimSt) (p : Person) :
    Except Err (Person × SimSt) :=
  if dateTrig p.date_recovered t then
    let p' := { p with exposed := false, infectious := false,
                       recovered := true }
    .ok (p', { σ with people := σ.people.set i p',
                      r_recoveries := bump σ.r_recoveries t 1 })
  else
    let σd := { σ with r_n_infectious := bump σ.r_n_infectious t 1 }
    match lookupPar σd.pars "contacts" with
    | .error e => .error e
    | .ok co =>
      let (k, σ1) := ptDraw g σd co
      let (inds, σ2) := chooseDraws g σ1.people.length k σ1
      match contactLoop g t p.uid inds σ2 with
      | .error e => .error e
      | .ok σ3 => .ok (p, σ3)

/-- The body of `for person in self.people.values()` (model_dist.py line
245-299) for the person at position `i` on day `t`: count susceptibles
and stop early; store the testing weight; run the exposed block; for
infectious people check death first, then recovery or contacts; finally
count the recovered flag as it stands after these updates. -/
def visitOne (g : Nat → Nat) (t i : Nat) (σ : SimSt) : Except Err SimSt :=
  let p := σ.people.getD i default
  if p.susceptible then
    .ok { σ with r_n_susceptible := bump σ.r_n_susceptible t 1 }
  else
    match tpStep σ p with
    | .error e => .error e
    | .ok σa =>
      let pσb := expoStep t i σa p
      match (if pσb.1.infectious then
               let pσc := deathStep t i pσb.2 pσb.1
               recovOrContacts g t i pσc.2 pσc.1
             else .ok (pσb.1, pσb.2)) with
      | .error e => .error e
      | .ok pσ3 =>
        if pσ3.1.recovered then
          .ok { pσ3.2 with
                r_n_recovered := bump pσ3.2.r_n_recovered t 1 }
        else .ok pσ3.2

/-- Iterate `visitOne` over positions `i, i+1, ...` for `fuel` steps (the
loop over `self.people.values()` visits each person once, in insertion
order). -/
def visitLoop (g : Nat → Nat) (t : Nat) : Nat → Nat → SimSt → Except Err SimSt
  | _, 0, σ => .ok σ
  | i, fuel + 1, σ =>
    match visitOne g t i σ with
    | .error e => .error e
    | .ok σ' => visitLoop g t (i + 1) fuel σ'

/-- The hard-coded empty daily test feed (model_dist.py line 229). -/
def dailyTests : List ℚ := []

/-- The intervene step (model_dist.py line 318-321): when `t` equals the
intervene day, the contacts parameter is scaled by `1 - intervention_eff`
in place. -/
def ivStepA (σ : SimSt) (t : Nat) : Except Err SimSt :=
  match lookupPar σ.pars "intervene" with
  | .error e => .error e
  | .ok iv =>
    if (t : ℚ) = iv then
      match lookupPar σ.pars "contacts" with
      | .error e => .error e
      | .ok co =>
        match lookupPar σ.pars "intervention_eff" with
        | .error e => .error e
        | .ok eff =>
          match setPar σ.pars "contacts" (qmul co (qsub 1 eff)) with
          | .error e => .error e
          | .ok ps => .ok { σ with pars := ps }
    else .ok σ

/-- The unintervene step (model_dist.py line 323-326): when `t` equals
the unintervene day, the contacts parameter is divided back by
`1 - intervention_eff` (a Python ZeroDivisionError when that is zero). -/
def ivStepB (σ : SimSt) (t : Nat) : Except Err SimSt :=
  match lookupPar σ.pars "unintervene" with
  | .error e => .error e
  | .ok uv =>
    if (t : ℚ) = uv then
      match lookupPar σ.pars "contacts" with
      | .error e => .error e
      | .ok co =>
        match lookupPar σ.pars "intervention_eff" with
        | .error e => .error e
        | .ok eff =>
          if qsub 1 eff = 0 then .error .zeroDivisionErr
          else
            match setPar σ.pars "contacts" (qdiv co (qsub 1 eff)) with
            | .error e => .error e
            | .ok ps => .ok { σ with pars := ps }
    else .ok σ

/-- One day of the main simulation loop (model_dist.py line 232-326):
reset the testing-weight table, visit every person, run the testing block
(whose guard `t < len(daily_tests)` never holds on the hard-coded empty
feed, and whose body would in any case fail on `daily_tests.iloc`), then
apply the intervene / unintervene scalings of the contacts parameter. -/
def dayStep (g : Nat → Nat) (σ0 : SimSt) (t : Nat) : Except Err SimSt :=
  let σ := { σ0 with testProbs := [] }
  match visitLoop g t 0 σ.people.length σ with
  | .error e => .error e
  | .ok σ1 =>
    if t < dailyTests.length then .error .testingPathErr
    else
      match ivStepA σ1 t with
      | .error e => .error e
      | .ok σ2 => ivStepB σ2 t

/-- Run days `0, 1, ..., k-1` in order. -/
def runDays (g : Nat → Nat) (σ : SimSt) : Nat → Except Err SimSt
  | 0 => .ok σ
  | k + 1 =>
    match runDays g σ k with
    | .error e => .error e
    | .ok σ' => dayStep g σ' k

/-- Sim.init_results (model_dist.py line 140-148): zero rows of length
`npts = n_days + 1` for every metric, and a fresh transmission tree. -/
def initResults (σ : SimSt) : Except Err SimSt :=
  match lookupPar σ.pars "n_days" with
  | .error e => .error e
  | .ok nd =>
    let npts := qToNat nd + 1
    let z : List ℚ := List.replicate npts 0
    .ok { σ with
          r_n_susceptible := z, r_n_exposed := z, r_n_infectious := z,
          r_n_recovered := z, r_infections := z, r_tests := z,
          r_diagnoses := z, r_recoveries := z, r_deaths := z,
          transtree := [] }

/-- The person-creation loop of init_people (model_dist.py line 163-170):
each iteration reads `usepopdata`, draws age and sex, and appends a fresh
person whose uid is its creation index. -/
def mkPeople (g : Nat → Nat) : Nat → Nat → SimSt → Except Err SimSt
  | 0, _, σ => .ok σ
  | n + 1, idx, σ =>
    match lookupPar σ.pars "usepopdata" with
    | .error e => .error e
    | .ok _ =>
      let ((age, sex), σ1) := ageSexDraw g σ
      let person : Person := { uid := idx, age := age, sex := sex }
      mkPeople g n (idx + 1) { σ1 with people := σ1.people ++ [person] }

/-- The seed-infection loop of init_people (model_dist.py line 172-181):
for each of the first `n_infected` positions, count an infection on day 0
and mark the person exposed and infectious with both day stamps 0 — and,
notably, with no recovery or death day. -/
def seedLoop : Nat → Nat → SimSt → Except Err SimSt
  | 0, _, σ => .ok σ
  | n + 1, i, σ =>
    let σ1 := { σ with r_infections := bump σ.r_infections 0 1 }
    if i < σ1.people.length then
      let p := σ1.people.getD i default
      let p' := { p with susceptible := false, exposed := true,
                         infectious := true, date_exposed := some 0,
                         date_infectious := some 0 }
      seedLoop n (i + 1) { σ1 with people := σ1.people.set i p' }
    else .error (.indexErr i)

/-- Sim.init_people (model_dist.py line 155-182): read the verbosity,
create `n` fresh people, then apply the seed infections. -/
def initPeople (g : Nat → Nat) (σ : SimSt) : Except Err SimSt :=
  match lookupPar σ.pars "verbose" with
  | .error e => .error e
  | .ok _ =>
    match lookupPar σ.pars "n" with
    | .error e => .error e
    | .ok nq =>
      match mkPeople g (qToNat nq) 0 { σ with people := [] } with
      | .error e => .error e
      | .ok σ1 =>
        match lookupPar σ1.pars "n_infected" with
        | .error e => .error e
        | .ok niq => seedLoop (qToNat niq) 0 σ1

/-- Running prefix sums, as `pl.cumsum`. -/
def cumsumFrom (acc : ℚ) : List ℚ → List ℚ
  | [] => []
  | x :: rest => qadd acc x :: cumsumFrom (qadd acc x) rest

/-- `pl.cumsum` on a result row. -/
def cumsum (l : List ℚ) : List ℚ := cumsumFrom 0 l

/-- The result table handed back by Sim.run, after the cumulative rows
are computed and every row is multiplied by the scale factor; the final
people and transmission tree are kept alongside. -/
structure RunOut where
  n_susceptible : List ℚ
  n_exposed : List ℚ
  n_infectious : List ℚ
  n_recovered : List ℚ
  infections : List ℚ
  tests : List ℚ
  diagnoses : List ℚ
  recoveries : List ℚ
  deaths : List ℚ
  cum_exposed : List ℚ
  cum_tested : List ℚ
  cum_diagnosed : List ℚ
  cum_deaths : List ℚ
  people : List Person
  transtree : List (Nat × Nat × Nat)
  deriving DecidableEq, Repr, Inhabited

/-- The post-loop bookkeeping of Sim.run (model_dist.py line 329-337):
cumulative rows are running sums of their daily counterparts, then every
row in `results_keys` is scaled. -/
def mkOut (σ : SimSt) (sc : ℚ) : RunOut :=
  { n_susceptible := σ.r_n_susceptible.map (fun x => qmul x sc)
    n_exposed := σ.r_n_exposed.map (fun x => qmul x sc)
    n_infectious := σ.r_n_infectious.map (fun x => qmul x sc)
    n_recovered := σ.r_n_recovered.map (fun x => qmul x sc)
    infections := σ.r_infections.map (fun x => qmul x sc)
    tests := σ.r_tests.map (fun x => qmul x sc)
    diagnoses := σ.r_diagnoses.map (fun x => qmul x sc)
    recoveries := σ.r_recoveries.map (fun x => qmul x sc)
    deaths := σ.r_deaths.map (fun x => qmul x sc)
    cum_exposed := (cumsum σ.r_infections).map (fun x => qmul x sc)
    cum_tested := (cumsum σ.r_tests).map (fun x => qmul x sc)
    cum_diagnosed := (cumsum σ.r_diagnoses).map (fun x => qmul x sc)
    cum_deaths := (cumsum σ.r_deaths).map (fun x => qmul x sc)
    people := σ.people
    transtree := σ.transtree }

/-- Sim.run (model_dist.py line 219-362): read the verbosity, reset
results, recreate the people, run every day, then aggregate and scale. -/
def run (g : Nat → Nat) (σ : SimSt) : Except Err RunOut :=
  match lookupPar σ.pars "verbose" with
  | .error e => .error e
  | .ok _ =>
    match initResults σ with
    | .error e => .error e
    | .ok σ1 =>
      match initPeople g σ1 with
      | .error e => .error e
      | .ok σ2 =>
        match lookupPar σ2.pars "n_days" with
        | .error e => .error e
        | .ok nd =>
          match runDays g σ2 (qToNat nd + 1) with
          | .error e => .error e
          | .ok σ3 =>
            match lookupPar σ3.pars "scale" with
            | .error e => .error e
            | .ok sc => .ok (mkOut σ3 sc)

/-- Sim.__init__ (model_dist.py line 106-115): store the parameters, seed
the stream from the `seed` parameter through the abstract stream family
`P` (modelled from the spec: the external `cov_ut.set_seed` reseeds one
process-wide pseudorandom stream), then build results and people.  The
chosen stream is returned alongside the state. -/
def simInit (P : ℚ → Nat → Nat) (pars : Params) :
    Except Err ((Nat → Nat) × SimSt) :=
  let σ0 : SimSt := { pars := pars, people := [], rix := 0 }
  match lookupPar pars "seed" with
  | .error e => .error e
  | .ok s =>
    let g := P s
    match initResults σ0 with
    | .error e => .error e
    | .ok σ1 =>
      match initPeople g σ1 with
      | .error e => .error e
      | .ok σ2 => .ok (g, σ2)

/-- single_run (model_dist.py line 489-506) on a freshly constructed Sim:
perturb the seed by the replicate index, reseed, apply multiplicative
noise to r0 (reading r0 fails on stores lacking it), then run. -/
def singleRun (P : ℚ → Nat → Nat) (pars : Params) (noise ind : ℚ) :
    Except Err RunOut :=
  match simInit P pars with
  | .error e => .error e
  | .ok (_, σ) =>
    match lookupPar σ.pars "seed" with
    | .error e => .error e
    | .ok s =>
      match setPar σ.pars "seed" (qadd s ind) with
      | .error e => .error e
      | .ok ps1 =>
        match lookupPar ps1 "seed" with
        | .error e => .error e
        | .ok s2 =>
          let g2 := P s2
          let σ1 := { σ with pars := ps1, rix := 0 }
          match lookupPar σ1.pars "r0" with
          | .error e => .error e
          | .ok r0 =>
            let (z, σ2) := randnDraw g2 σ1
            match setPar σ2.pars "r0" (qmul r0 (qadd 1 (qmul noise z))) with
            | .error e => .error e
            | .ok ps2 => run g2 { σ2 with pars := ps2 }

/-- make_pars (parameters.py line 12-46).  `day_0` is a calendar date in
the source; only its key matters to any claim, so its value is stored
as 0.  `n_days` is the 54-day span from 2020-01-15 to 2020-03-09. -/
def make_pars : Params :=
  [("scale", 1), ("n", 10000), ("n_infected", 1), ("day_0", 0),
   ("n_days", 54), ("seed", 1), ("verbose", 1), ("usepopdata", 0),
   ("r_contact", mkRat 29 2000), ("contacts", 20), ("incub", 4),
   ("incub_std", 1), ("dur", 12), ("dur_std", 3), ("sensitivity", 1),
   ("symptomatic", 5), ("cfr", mkRat 1 50), ("timetodie", 22),
   ("timetodie_std", 2), ("quarantine", -1), ("unquarantine", -1),
   ("quarantine_eff", 1)]

/-! ## Concrete inputs used by witnesses and counterexamples -/

/-- The all-zero pseudorandom stream (every Poisson contact count is 0,
every Bernoulli draw compares 0 against the probability). -/
def gZero : Nat → Nat := fun _ => 0

/-- A constant stream family for instantiating the seeded-stream model. -/
def famZero : ℚ → Nat → Nat := fun _ _ => 0

/-- A complete small parameter set (every key the run loop reads is
present): one person, no seed infections, a single day. -/
def demoPars : Params :=
  [("scale", 1), ("n", 1), ("n_infected", 0), ("n_days", 0), ("seed", 1),
   ("verbose", 0), ("usepopdata", 0), ("contacts", 20), ("incub", 4),
   ("dur", 12), ("sensitivity", 1), ("symptomatic", 5), ("cfr", 0),
   ("timetodie", 22), ("timetodie_std", 2), ("r0", 0), ("intervene", -1),
   ("unintervene", -1), ("intervention_eff", 0)]

/-- Parameters forcing a transmission chain with a quick death: two
people, one seed, certain transmission (r0/dur/contacts = 1) and certain
fatality (cfr = 1). -/
def c1pars : Params :=
  [("scale", 1), ("n", 2), ("n_infected", 1), ("n_days", 2), ("seed", 1),
   ("verbose", 0), ("usepopdata", 0), ("contacts", 1), ("incub", 4),
   ("dur", 1), ("sensitivity", 1), ("symptomatic", 5), ("cfr", 1),
   ("timetodie", 22), ("timetodie_std", 2), ("r0", 1), ("intervene", -1),
   ("unintervene", -1), ("intervention_eff", 0)]

/-- Stream for the `c1pars` run: the seed draws one contact on day 0,
chooses person 1, the incubation sample is 1 and the death delay is 1, so
person 1 becomes infectious and dies on day 1. -/
def c1g : Nat → Nat := fun n => [0, 0, 0, 0, 1, 1, 0, 1, 0, 1].getD n 0

/-- One seeded person, a single day: the seed individual is created with
exposure day and infectious day both 0 and no terminal day. -/
def seedPars : Params :=
  [("scale", 1), ("n", 1), ("n_infected", 1), ("n_days", 0), ("seed", 1),
   ("verbose", 0), ("usepopdata", 0), ("contacts", 20), ("incub", 4),
   ("dur", 12), ("sensitivity", 1), ("symptomatic", 5), ("cfr", 0),
   ("timetodie", 22), ("timetodie_std", 2), ("r0", 0), ("intervene", -1),
   ("unintervene", -1), ("intervention_eff", 0)]

/-- The intervention scenario of the claim: intervene day 10 at efficacy
one half, unintervene day 20, over 26 days. -/
def c6pars : Params :=
  [("scale", 1), ("n", 1), ("n_infected", 0), ("n_days", 25), ("seed", 1),
   ("verbose", 0), ("usepopdata", 0), ("contacts", 20), ("incub", 4),
   ("dur", 12), ("sensitivity", 1), ("symptomatic", 5), ("cfr", 0),
   ("timetodie", 22), ("timetodie_std", 2), ("r0", 0), ("intervene", 10),
   ("unintervene", 20), ("intervention_eff", mkRat 1 2)]

/-- A fresh simulation state over a parameter store, before `run`
rebuilds the results and the people. -/
def mkSt (ps : Params) : SimSt := { pars := ps, people := [], rix := 0 }

/-! ## List index helpers -/

theorem getD_set_self {α : Type} (l : List α) (i : Nat) (a d : α)
    (h : i < l.length) : (l.set i a).getD i d = a := by
  induction l generalizing i with
  | nil => simp at h
  | cons x xs ih =>
    cases i with
    | zero => rfl
    | succ j =>
      simp only [List.set, List.getD, List.get?]
      exact ih j (by simpa using h)

theorem getD_set_ne {α : Type} (l : List α) (i j : Nat) (a d : α)
    (h : i ≠ j) : (l.set i a).getD j d = l.getD j d := by
  induction l generalizing i j with
  | nil => simp
  | cons x xs ih =>
    cases i with
    | zero =>
      cases j with
      | zero => exact absurd rfl h
      | succ j' => rfl
    | succ i' =>
      cases j with
      | zero => rfl
      | succ j' =>
        simp only [List.set, List.getD, List.get?]
        exact ih i' j' (fun he => h (by rw [he]))

theorem set_oob {α : Type} (l : List α) (i : Nat) (a : α)
    (h : l.length ≤ i) : l.set i a = l := by
  induction l generalizing i with
  | nil => rfl
  | cons x xs ih =>
    cases i with
    | zero => simp at h
    | succ j =>
      simp only [List.set]
      rw [ih j (by simpa using h)]

/-! ## Basic facts about the parameter store -/

theorem hasKey_iff (ps : Params) (k : String) :
    hasKey ps k = true ↔ k ∈ parKeys ps := by
  simp only [hasKey, parKeys, List.any_eq_true, List.mem_map]
  constructor
  · rintro ⟨kv, hm, he⟩
    exact ⟨kv, hm, by simp_all⟩
  · rintro ⟨kv, hm, he⟩
    exact ⟨kv, hm, by simp_all⟩

theorem lookupPar_absent (ps : Params) (k : String)
    (h : hasKey ps k = false) :
    lookupPar ps k = .error (.keyNotFound k) := by
  induction ps with
  | nil => rfl
  | cons kv rest ih =>
    simp only [hasKey, List.any_cons, Bool.or_eq_false_iff] at h
    simp only [lookupPar]
    rw [if_neg, ih]
    · simpa [hasKey] using h.2
    · intro he
      simp [he] at h

theorem suggest_foldl_mem (k : String) :
    ∀ (keys : List String) (b : String),
      ∃ s, keys.foldl
          (fun best cand =>
            match best with
            | none => some cand
            | some b' =>
              if lev k.data cand.data < lev k.data b'.data then some cand
              else best)
          (some b) = some s ∧ (s = b ∨ s ∈ keys) := by
  intro keys
  induction keys with
  | nil => exact fun b => ⟨b, rfl, Or.inl rfl⟩
  | cons c rest ih =>
    intro b
    simp only [List.foldl_cons]
    by_cases hlt : lev k.data c.data < lev k.data b.data
    · rw [if_pos hlt]
      obtain ⟨s, hs, hmem⟩ := ih c
      refine ⟨s, hs, ?_⟩
      rcases hmem with h | h
      · exact Or.inr (by simp [h])
      · exact Or.inr (by simp [h])
    · rw [if_neg hlt]
      obtain ⟨s, hs, hmem⟩ := ih b
      refine ⟨s, hs, ?_⟩
      rcases hmem with h | h
      · exact Or.inl h
      · exact Or.inr (by simp [h])

theorem suggest_some (k : String) (keys : List String) (hne : keys ≠ []) :
    ∃ s, suggest k keys = some s ∧ s ∈ keys := by
  cases keys with
  | nil => exact absurd rfl hne
  | cons c rest =>
    simp only [suggest, List.foldl_cons]
    obtain ⟨s, hs, hmem⟩ := suggest_foldl_mem k rest c
    refine ⟨s, hs, ?_⟩
    rcases hmem with h | h
    · simp [h]
    · simp [h]

theorem replacePar_keys (ps : Params) (k : String) (v : ℚ) :
    parKeys (replacePar ps k v) = parKeys ps := by
  induction ps with
  | nil => rfl
  | cons kv rest ih =>
    simp only [replacePar]
    split
    · simp [parKeys]
    · simp [parKeys] at ih ⊢
      exact ih

theorem setPar_ok_keys (ps : Params) (k : String) (v : ℚ) (ps' : Params)
    (h : setPar ps k v = .ok ps') : parKeys ps' = parKeys ps := by
  unfold setPar at h
  split at h
  · cases h
    exact replacePar_keys ps k v
  · cases h

/-- Claim C7, corrected.  On an absent key: `get` raises a bare
key-not-found error that carries no suggestion; `set` raises the
suggestion-carrying key-not-found error, and on a nonempty store the
suggestion is some valid key; `set` never succeeds on an absent key, and
a successful `set` never changes the key set. -/
theorem C7_amended (ps : Params) (k : String) (v : ℚ)
    (habs : hasKey ps k = false) :
    lookupPar ps k = .error (.keyNotFound k) ∧
    errHasSuggestion (.keyNotFound k) = false ∧
    setPar ps k v = .error (.keyNotFoundSuggest k (suggest k (parKeys ps))) ∧
    (ps ≠ [] → ∃ s, suggest k (parKeys ps) = some s ∧ s ∈ parKeys ps) ∧
    (∀ ps', setPar ps k v ≠ .ok ps') ∧
    (∀ k' v' ps', setPar ps k' v' = .ok ps' → parKeys ps' = parKeys ps) := by
  refine ⟨lookupPar_absent ps k habs, rfl, ?_, ?_, ?_, ?_⟩
  · unfold setPar
    rw [if_neg (by simp [habs])]
  · intro hne
    apply suggest_some
    intro hk
    apply hne
    cases ps with
    | nil => rfl
    | cons kv rest => simp [parKeys] at hk
  · intro ps' hok
    unfold setPar at hok
    rw [if_neg (by simp [habs])] at hok
    cases hok
  · exact fun k' v' ps' h => setPar_ok_keys ps k' v' ps' h

/-- Claim C7 witness: a concrete store and absent key. -/
theorem C7_witness :
    hasKey [("n", (1 : ℚ)), ("contacts", 20)] "contactz" = false ∧
    (lookupPar [("n", (1 : ℚ)), ("contacts", 20)] "contactz" =
        .error (.keyNotFound "contactz") ∧
      errHasSuggestion (.keyNotFound "contactz") = false ∧
      setPar [("n", (1 : ℚ)), ("contacts", 20)] "contactz" 5 =
        .error (.keyNotFoundSuggest "contactz"
          (suggest "contactz" (parKeys [("n", (1 : ℚ)), ("contacts", 20)]))) ∧
      (([("n", (1 : ℚ)), ("contacts", 20)] : Params) ≠ [] →
        ∃ s, suggest "contactz" (parKeys [("n", (1 : ℚ)), ("contacts", 20)]) =
            some s ∧ s ∈ parKeys [("n", (1 : ℚ)), ("contacts", 20)]) ∧
      (∀ ps', setPar [("n", (1 : ℚ)), ("contacts", 20)] "contactz" 5 ≠ .ok ps') ∧
      (∀ k' v' ps',
        setPar [("n", (1 : ℚ)), ("contacts", 20)] k' v' = .ok ps' →
          parKeys ps' = parKeys [("n", (1 : ℚ)), ("contacts", 20)])) :=
  ⟨by decide, C7_amended _ _ 5 (by decide)⟩

/-- Claim C7, counterexample to the claim as stated: reading an absent
key raises the plain dict KeyError of `ParsObj.__getitem__`, which
carries no nearest-match suggestion. -/
theorem C7_counterexample :
    lookupPar [("n", (1 : ℚ)), ("contacts", 20)] "contactz" =
      .error (.keyNotFound "contactz") ∧
    errHasSuggestion (.keyNotFound "contactz") = false := by
  constructor
  · decide
  · rfl

/-- Claim C8, counterexample: `update_pars` on an existing store is
Python dict.update, which adds the genuinely new key "b". -/
theorem C8_counterexample :
    updatePars [("a", (1 : ℚ))] [("b", 2)] = [("a", 1), ("b", 2)] ∧
    parKeys (updatePars [("a", (1 : ℚ))] [("b", 2)]) ≠ parKeys [("a", (1 : ℚ))] := by
  constructor
  · decide
  · decide

theorem updateOne_mem (ps : Params) (kv : String × ℚ) (k : String) :
    k ∈ parKeys (updateOne ps kv) ↔ (k ∈ parKeys ps ∨ k = kv.1) := by
  unfold updateOne
  split
  · rename_i hk
    rw [replacePar_keys]
    constructor
    · exact Or.inl
    · rintro (h | h)
      · exact h
      · rw [h]
        exact (hasKey_iff ps kv.1).mp hk
  · simp [parKeys]

/-- Claim C8, amended: after `update_pars` on an already-constructed
store, the key set is the union of the old keys and the mapping keys —
existing keys are overwritten in place and new keys are appended, with no
key-existence validation. -/
theorem C8_amended (ps : Params) (new : List (String × ℚ)) (k : String) :
    k ∈ parKeys (updatePars ps new) ↔
      (k ∈ parKeys ps ∨ k ∈ new.map (·.1)) := by
  induction new generalizing ps with
  | nil => simp [updatePars]
  | cons kv rest ih =>
    have hstep : updatePars ps (kv :: rest) = updatePars (updateOne ps kv) rest := rfl
    rw [hstep, ih, updateOne_mem]
    simp only [List.map_cons, List.mem_cons]
    tauto

/-- Claim C5: determinism.  A run is a pure function of the parameter
set, the replicate index, the noise level and the seeded stream family,
so two invocations with identical inputs return identical result tables,
every metric row equal element by element. -/
theorem C5_determinism (P : ℚ → Nat → Nat) (pars : Params) (noise ind : ℚ)
    (out1 out2 : RunOut)
    (h1 : singleRun P pars noise ind = .ok out1)
    (h2 : singleRun P pars noise ind = .ok out2) : out1 = out2 := by
  rw [h1] at h2
  exact Except.ok.inj h2

/-- The result of the concrete demo run, extracted for the C5 witness. -/
def c5out : RunOut :=
  match singleRun famZero demoPars 0 0 with
  | .ok o => o
  | .error _ => default

/-- Claim C5 witness: the demo single run succeeds and is equal to
itself across two invocations. -/
theorem C5_witness :
    singleRun famZero demoPars 0 0 = .ok c5out ∧ c5out = c5out :=
  ⟨rfl, C5_determinism famZero demoPars 0 0 c5out c5out rfl rfl⟩

/-! ## Preservation facts about one simulated day -/

/-- Facts preserved by every person visit and contact: the parameter
store, the population size, the tests and diagnoses rows, each
individual's diagnosed flag, and monotonicity of the stream cursor. -/
structure KeepB (σ σ' : SimSt) : Prop where
  pars : σ'.pars = σ.pars
  len : σ'.people.length = σ.people.length
  tests : σ'.r_tests = σ.r_tests
  diags : σ'.r_diagnoses = σ.r_diagnoses
  diagFlags : ∀ j, (σ'.people.getD j default).diagnosed =
    (σ.people.getD j default).diagnosed
  rix : σ.rix ≤ σ'.rix

theorem keepB_rfl {σ : SimSt} : KeepB σ σ :=
  ⟨by rfl, by rfl, by rfl, by rfl, fun _ => by rfl, le_refl _⟩

theorem keepB_trans {σ1 σ2 σ3 : SimSt} (a : KeepB σ1 σ2) (b : KeepB σ2 σ3) :
    KeepB σ1 σ3 :=
  ⟨b.pars.trans a.pars, b.len.trans a.len, b.tests.trans a.tests,
   b.diags.trans a.diags, fun j => (b.diagFlags j).trans (a.diagFlags j),
   le_trans a.rix b.rix⟩

theorem infectPerson_keep (g : Nat → Nat) (σ : SimSt) (srcUid tgtIdx t : Nat)
    (σ' : SimSt) (h : infectPerson g σ srcUid tgtIdx t = .ok σ') :
    KeepB σ σ' := by
  unfold infectPerson at h
  simp only [sampleDraw, btDraw, normalRoundDraw, drawNat] at h
  by_cases hb : tgtIdx < σ.people.length
  · repeat' split at h
    all_goals cases h
    all_goals
      refine ⟨by rfl, by simp, by rfl, by rfl, ?_, by simp; omega⟩
    all_goals
      intro j
      by_cases hj : tgtIdx = j
      · subst hj
        rw [getD_set_self _ _ _ _ (by simpa using hb)]
      · rw [getD_set_ne _ _ _ _ _ hj]
  · repeat' split at h
    all_goals cases h
    all_goals
      refine ⟨by rfl, ?_, by rfl, by rfl, ?_, by simp; omega⟩ <;>
        rw [set_oob _ _ _ (by simpa using Nat.le_of_not_lt hb)]
    all_goals exact fun _ => by rfl

theorem contactLoop_keep (g : Nat → Nat) (t srcUid : Nat) :
    ∀ (inds : List Nat) (σ σ' : SimSt),
      contactLoop g t srcUid inds σ = .ok σ' → KeepB σ σ' := by
  intro inds
  induction inds with
  | nil =>
    intro σ σ' h
    cases h
    exact keepB_rfl
  | cons ind rest ih =>
    intro σ σ' h
    unfold contactLoop at h
    simp only [btDraw, drawNat] at h
    split at h
    · cases h
    · split at h
      · cases h
      · split at h
        · cases h
        · split at h
          · split at h
            · split at h
              · split at h
                · cases h
                · rename_i hinf
                  have base : KeepB σ
                      { σ with rix := σ.rix + 1,
                               r_infections := bump σ.r_infections t 1 } :=
                    ⟨by rfl, by rfl, by rfl, by rfl, fun _ => by rfl,
                     Nat.le_succ _⟩
                  exact keepB_trans (keepB_trans base
                    (infectPerson_keep _ _ _ _ _ _ hinf)) (ih _ _ h)
              · have base : KeepB σ { σ with rix := σ.rix + 1 } :=
                  ⟨by rfl, by rfl, by rfl, by rfl, fun _ => by rfl,
                   Nat.le_succ _⟩
                exact keepB_trans base (ih _ _ h)
            · cases h
          · have base : KeepB σ { σ with rix := σ.rix + 1 } :=
              ⟨by rfl, by rfl, by rfl, by rfl, fun _ => by rfl,
               Nat.le_succ _⟩
            exact keepB_trans base (ih _ _ h)

theorem chooseDraws_state (g : Nat → Nat) (m : Nat) :
    ∀ (n : Nat) (σ : SimSt),
      (chooseDraws g m n σ).2 = { σ with rix := σ.rix + n } := by
  intro n
  induction n with
  | zero => intro σ; rfl
  | succ k ih =>
    intro σ
    show (chooseDraws g m k { σ with rix := σ.rix + 1 }).2 = _
    rw [ih]
    have hr : σ.rix + 1 + k = σ.rix + (k + 1) := by omega
    simp [hr]

theorem getD_oob {α : Type} (l : List α) (i : Nat) (d : α)
    (h : l.length ≤ i) : l.getD i d = d := by
  induction l generalizing i with
  | nil => cases i <;> rfl
  | cons x xs ih =>
    cases i with
    | zero => simp at h
    | succ j =>
      simp only [List.getD, List.get?]
      exact ih j (by simpa using h)

theorem getD_mem {α : Type} (l : List α) (i : Nat) (d : α)
    (h : i < l.length) : l.getD i d ∈ l := by
  induction l generalizing i with
  | nil => simp at h
  | cons x xs ih =>
    cases i with
    | zero => exact List.mem_cons_self x xs
    | succ j =>
      exact List.mem_cons_of_mem x (ih j (by simpa using h))

theorem tpStep_keep (σ : SimSt) (p : Person) (σ' : SimSt)
    (h : tpStep σ p = .ok σ') : KeepB σ σ' := by
  unfold tpStep at h
  repeat' split at h
  all_goals cases h
  all_goals exact ⟨by rfl, by rfl, by rfl, by rfl, fun _ => by rfl, le_refl _⟩

theorem expoStep_keep (t i : Nat) (σ : SimSt) (p : Person)
    (hp : p = σ.people.getD i default) :
    KeepB σ (expoStep t i σ p).2 := by
  unfold expoStep
  split
  · split
    · refine ⟨by rfl, by simp, by rfl, by rfl, ?_, le_refl _⟩
      intro j
      dsimp only
      by_cases hj : i = j
      · subst hj
        by_cases hb : i < σ.people.length
        · rw [getD_set_self _ _ _ _ (by simpa using hb), hp]
        · rw [set_oob _ _ _ (by simpa using Nat.le_of_not_lt hb)]
      · rw [getD_set_ne _ _ _ _ _ hj]
    · exact ⟨by rfl, by rfl, by rfl, by rfl, fun _ => by rfl, le_refl _⟩
  · exact keepB_rfl

theorem deathStep_keep (t i : Nat) (σ : SimSt) (p : Person)
    (hp : p = σ.people.getD i default) :
    KeepB σ (deathStep t i σ p).2 := by
  unfold deathStep
  split
  · refine ⟨by rfl, by simp, by rfl, by rfl, ?_, le_refl _⟩
    intro j
    dsimp only
    by_cases hj : i = j
    · subst hj
      by_cases hb : i < σ.people.length
      · rw [getD_set_self _ _ _ _ (by simpa using hb), hp]
      · rw [set_oob _ _ _ (by simpa using Nat.le_of_not_lt hb)]
    · rw [getD_set_ne _ _ _ _ _ hj]
  · exact keepB_rfl

theorem recovOrContacts_keep (g : Nat → Nat) (t i : Nat) (σ : SimSt)
    (p : Person) (hp : p = σ.people.getD i default) (p' : Person)
    (σ' : SimSt) (h : recovOrContacts g t i σ p = .ok (p', σ')) :
    KeepB σ σ' := by
  unfold recovOrContacts at h
  split at h
  · cases h
    refine ⟨by rfl, by simp, by rfl, by rfl, ?_, le_refl _⟩
    intro j
    dsimp only
    by_cases hj : i = j
    · subst hj
      by_cases hb : i < σ.people.length
      · rw [getD_set_self _ _ _ _ (by simpa using hb), hp]
      · rw [set_oob _ _ _ (by simpa using Nat.le_of_not_lt hb)]
    · rw [getD_set_ne _ _ _ _ _ hj]
  · simp only [ptDraw, drawNat] at h
    split at h
    · cases h
    · split at h
      · cases h
      · rename_i hcl
        cases h
        have base : KeepB σ
            { σ with r_n_infectious := bump σ.r_n_infectious t 1,
                     rix := σ.rix + 1 } :=
          ⟨by rfl, by rfl, by rfl, by rfl, fun _ => by rfl, Nat.le_succ _⟩
        have hmid := chooseDraws_state g
          ({ σ with r_n_infectious := bump σ.r_n_infectious t 1,
                    rix := σ.rix + 1 } : SimSt).people.length
          (g σ.rix)
          { σ with r_n_infectious := bump σ.r_n_infectious t 1,
                   rix := σ.rix + 1 }
        rw [hmid] at hcl
        have kmid : KeepB σ
            { σ with r_n_infectious := bump σ.r_n_infectious t 1,
                     rix := σ.rix + 1 + g σ.rix } :=
          ⟨by rfl, by rfl, by rfl, by rfl, fun _ => by rfl,
           by change σ.rix ≤ σ.rix + 1 + g σ.rix; omega⟩
        exact keepB_trans kmid (contactLoop_keep _ _ _ _ _ _ hcl)

theorem visitOne_keep (g : Nat → Nat) (t i : Nat) (σ σ' : SimSt)
    (h : visitOne g t i σ = .ok σ') : KeepB σ σ' := by
  unfold visitOne at h
  dsimp only at h
  split at h
  · cases h
    exact ⟨by rfl, by rfl, by rfl, by rfl, fun _ => by rfl, le_refl _⟩
  · rename_i hsus
    split at h
    · cases h
    · rename_i σa htp
      have ka := tpStep_keep σ _ σa htp
      have hb : i < σ.people.length := by
        by_contra hb
        rw [getD_oob _ _ _ (Nat.le_of_not_lt hb)] at hsus
        exact hsus rfl
      have hpa : σ.people.getD i default = σa.people.getD i default := by
        have := ka.len
        have hpp : σa.people = σ.people := by
          unfold tpStep at htp
          repeat' split at htp
          all_goals cases htp
          all_goals rfl
        rw [hpp]
      have kb := expoStep_keep t i σa (σ.people.getD i default) hpa
      have hpb : (expoStep t i σa (σ.people.getD i default)).1 =
          (expoStep t i σa (σ.people.getD i default)).2.people.getD i
            default := by
        unfold expoStep
        split
        · split
          · have hlen : i < σa.people.length := by
              have hpp : σa.people = σ.people := by
                unfold tpStep at htp
                repeat' split at htp
                all_goals cases htp
                all_goals rfl
              rw [hpp]
              exact hb
            rw [getD_set_self _ _ _ _ (by simpa using hlen)]
          · exact hpa
        · exact hpa
      split at h
      · cases h
      · rename_i pσ3 hfin
        split at hfin
        · rename_i hinf
          have kc := deathStep_keep t i
            (expoStep t i σa (σ.people.getD i default)).2
            (expoStep t i σa (σ.people.getD i default)).1 hpb
          have hpc : (deathStep t i
              (expoStep t i σa (σ.people.getD i default)).2
              (expoStep t i σa (σ.people.getD i default)).1).1 =
              (deathStep t i
                (expoStep t i σa (σ.people.getD i default)).2
                (expoStep t i σa (σ.people.getD i default)).1).2.people.getD
                  i default := by
            unfold deathStep
            split
            · have hlen : i < (expoStep t i σa
                  (σ.people.getD i default)).2.people.length := by
                have h1 := kb.len
                have h2 := ka.len
                omega
              dsimp only
              rw [getD_set_self _ _ _ _ (by simpa using hlen)]
            · exact hpb
          have kd := recovOrContacts_keep g t i
            (deathStep t i (expoStep t i σa (σ.people.getD i default)).2
              (expoStep t i σa (σ.people.getD i default)).1).2
            (deathStep t i (expoStep t i σa (σ.people.getD i default)).2
              (expoStep t i σa (σ.people.getD i default)).1).1
            hpc pσ3.1 pσ3.2 (by rw [← hfin])
          have kall : KeepB σ pσ3.2 := keepB_trans ka (keepB_trans kb (keepB_trans kc kd))
          split at h
          · cases h
            exact ⟨kall.pars, kall.len, kall.tests, kall.diags,
              kall.diagFlags, kall.rix⟩
          · cases h
            exact kall
        · cases hfin
          have kall : KeepB σ (expoStep t i σa (σ.people.getD i default)).2 :=
            keepB_trans ka kb
          split at h
          · cases h
            exact ⟨kall.pars, kall.len, kall.tests, kall.diags,
              kall.diagFlags, kall.rix⟩
          · cases h
            exact kall

theorem visitLoop_keep (g : Nat → Nat) (t : Nat) :
    ∀ (fuel i : Nat) (σ σ' : SimSt),
      visitLoop g t i fuel σ = .ok σ' → KeepB σ σ' := by
  intro fuel
  induction fuel with
  | zero =>
    intro i σ σ' h
    cases h
    exact keepB_rfl
  | succ k ih =>
    intro i σ σ' h
    unfold visitLoop at h
    split at h
    · cases h
    · rename_i σ1 hv
      exact keepB_trans (visitOne_keep g t i σ σ1 hv) (ih _ _ _ h)

/-! ## Person invariants, state classes and counters -/

/-- The date inequalities of the person state machine: infectious day at
or after exposure day, recovery day at or after infectious day, death
day at or after exposure day. -/
def datesLE (p : Person) : Prop :=
  (∀ e i, p.date_exposed = some e → p.date_infectious = some i → e ≤ i) ∧
  (∀ r, p.date_recovered = some r →
    ∃ i, p.date_infectious = some i ∧ i ≤ r) ∧
  (∀ d, p.date_died = some d → ∃ e, p.date_exposed = some e ∧ e ≤ d)

/-- The invariant every person of a run satisfies: susceptible people
carry no flags and no dates; exposed people are not recovered; infectious
people are exposed; at most one terminal day is set; and the date
inequalities hold. -/
def PInv (p : Person) : Prop :=
  (p.susceptible = true → p.exposed = false ∧ p.recovered = false ∧
    p.infectious = false ∧ p.date_exposed = none ∧
    p.date_infectious = none ∧ p.date_recovered = none ∧
    p.date_died = none) ∧
  (p.exposed = true → p.recovered = false) ∧
  (p.infectious = true → p.exposed = true) ∧
  (p.date_died = none ∨ p.date_recovered = none) ∧
  datesLE p

/-- Once set, the four date stamps of a person never change. -/
def dPersist (p q : Person) : Prop :=
  (∀ v, p.date_exposed = some v → q.date_exposed = some v) ∧
  (∀ v, p.date_infectious = some v → q.date_infectious = some v) ∧
  (∀ v, p.date_recovered = some v → q.date_recovered = some v) ∧
  (∀ v, p.date_died = some v → q.date_died = some v)

theorem dPersist_rfl {p : Person} : dPersist p p :=
  ⟨fun _ h => h, fun _ h => h, fun _ h => h, fun _ h => h⟩

theorem dPersist_trans {p q r : Person} (a : dPersist p q)
    (b : dPersist q r) : dPersist p r :=
  ⟨fun v h => b.1 v (a.1 v h), fun v h => b.2.1 v (a.2.1 v h),
   fun v h => b.2.2.1 v (a.2.2.1 v h), fun v h => b.2.2.2 v (a.2.2.2 v h)⟩

/-- Resolved-dead class: not susceptible, not exposed, not recovered
(the only way there is the death branch, since nothing reads `died`). -/
def classD (p : Person) : Bool :=
  !p.susceptible && !p.exposed && !p.recovered

/-- Number of resolved-dead people. -/
def dcount (ps : List Person) : Nat := ps.countP classD

/-- The part of the day-t row sums that counts each individual at most
once: susceptible + exposed + recovered. -/
def SER (σ : SimSt) (t : Nat) : ℚ :=
  σ.r_n_susceptible.getD t 0 + σ.r_n_exposed.getD t 0 +
    σ.r_n_recovered.getD t 0

/-- Number of people in the index window `[i, i+fuel)` that are not in
the resolved-dead class. -/
def liveN (ps : List Person) : Nat → Nat → Nat
  | _, 0 => 0
  | i, fuel + 1 =>
    (if classD (ps.getD i default) then 0 else 1) + liveN ps (i + 1) fuel

/-- Number of people in the index window `[i, i+fuel)` that are in the
resolved-dead class. -/
def deadN (ps : List Person) : Nat → Nat → Nat
  | _, 0 => 0
  | i, fuel + 1 =>
    (if classD (ps.getD i default) then 1 else 0) + deadN ps (i + 1) fuel

/-- Sum of the first `t` entries of a result row. -/
def presum (l : List ℚ) : Nat → ℚ
  | 0 => 0
  | t + 1 => presum l t + l.getD t 0

/-! ### Row and counter helper lemmas -/

theorem bump_len (l : List ℚ) (t : Nat) (v : ℚ) :
    (bump l t v).length = l.length := by
  simp [bump]

theorem bump_getD_self (l : List ℚ) (t : Nat) (v : ℚ)
    (h : t < l.length) : (bump l t v).getD t 0 = l.getD t 0 + v := by
  unfold bump
  rw [getD_set_self _ _ _ _ h, qadd_eq]

theorem bump_getD_other (l : List ℚ) (t : Nat) (v : ℚ) (s : Nat)
    (h : s ≠ t) : (bump l t v).getD s 0 = l.getD s 0 := by
  unfold bump
  rw [getD_set_ne _ _ _ _ _ (fun he => h he.symm)]

theorem countP_set_eq (f : Person → Bool) :
    ∀ (ps : List Person) (i : Nat) (a : Person), i < ps.length →
      f a = f (ps.getD i default) →
      (ps.set i a).countP f = ps.countP f := by
  intro ps
  induction ps with
  | nil => intro i a h; simp at h
  | cons x xs ih =>
    intro i a h hf
    cases i with
    | zero =>
      simp only [List.set, List.countP_cons]
      simp only [List.getD_cons_zero] at hf
      rw [hf]
    | succ j =>
      simp only [List.set, List.countP_cons]
      simp only [List.getD_cons_succ] at hf
      rw [ih j a (by simpa using h) hf]

theorem countP_set_flip (f : Person → Bool) :
    ∀ (ps : List Person) (i : Nat) (a : Person), i < ps.length →
      f (ps.getD i default) = false → f a = true →
      (ps.set i a).countP f = ps.countP f + 1 := by
  intro ps
  induction ps with
  | nil => intro i a h; simp at h
  | cons x xs ih =>
    intro i a h hold hnew
    cases i with
    | zero =>
      simp only [List.set, List.countP_cons]
      simp only [List.getD_cons_zero] at hold
      rw [hold, hnew]
      norm_num
    | succ j =>
      simp only [List.set, List.countP_cons]
      simp only [List.getD_cons_succ] at hold
      rw [ih j a (by simpa using h) hold hnew]
      omega

theorem pinv_set (ps : List Person) (i : Nat) (a : Person)
    (hOK : ∀ p ∈ ps, PInv p) (ha : PInv a) :
    ∀ p ∈ ps.set i a, PInv p := by
  intro p hp
  rcases List.mem_or_eq_of_mem_set hp with hp | hp
  · exact hOK p hp
  · subst hp
    exact ha

theorem liveN_congr (ps ps' : List Person) (i0 : Nat)
    (h : ∀ j, i0 ≤ j → classD (ps'.getD j default) =
      classD (ps.getD j default)) :
    ∀ (fuel i : Nat), i0 ≤ i → liveN ps' i fuel = liveN ps i fuel := by
  intro fuel
  induction fuel with
  | zero => intro i _; rfl
  | succ k ih =>
    intro i hi
    unfold liveN
    rw [h i hi, ih (i + 1) (by omega)]

theorem liveN_add_deadN (ps : List Person) :
    ∀ (fuel i : Nat), liveN ps i fuel + deadN ps i fuel = fuel := by
  intro fuel
  induction fuel with
  | zero => intro i; rfl
  | succ k ih =>
    intro i
    unfold liveN deadN
    have := ih (i + 1)
    split
    · omega
    · omega

theorem deadN_shift (x : Person) (xs : List Person) :
    ∀ (fuel i : Nat), deadN (x :: xs) (i + 1) fuel = deadN xs i fuel := by
  intro fuel
  induction fuel with
  | zero => intro i; rfl
  | succ k ih =>
    intro i
    unfold deadN
    rw [List.getD_cons_succ, ih (i + 1)]

theorem deadN_eq_dcount :
    ∀ (ps : List Person), deadN ps 0 ps.length = dcount ps := by
  intro ps
  induction ps with
  | nil => rfl
  | cons x xs ih =>
    show deadN (x :: xs) 0 (xs.length + 1) = _
    unfold deadN
    rw [deadN_shift, ih]
    unfold dcount
    rw [List.countP_cons, List.getD_cons_zero]
    split
    · omega
    · omega

theorem liveN_eq_sub (ps : List Person) :
    (liveN ps 0 ps.length : ℚ) =
      (ps.length : ℚ) - (dcount ps : ℚ) := by
  have h1 := liveN_add_deadN ps ps.length 0
  rw [deadN_eq_dcount] at h1
  have h2 : (liveN ps 0 ps.length : ℚ) + (dcount ps : ℚ) =
      (ps.length : ℚ) := by
    exact_mod_cast congrArg (fun n : ℕ => (n : ℚ)) h1
  linarith

theorem presum_congr (l l' : List ℚ) :
    ∀ (t : Nat), (∀ s, s < t → l'.getD s 0 = l.getD s 0) →
      presum l' t = presum l t := by
  intro t
  induction t with
  | zero => intro _; rfl
  | succ k ih =>
    intro h
    unfold presum
    rw [h k (by omega), ih (fun s hs => h s (by omega))]

theorem presum_cons (x : ℚ) (l : List ℚ) :
    ∀ (t : Nat), presum (x :: l) (t + 1) = x + presum l t := by
  intro t
  induction t with
  | zero =>
    show presum (x :: l) 0 + (x :: l).getD 0 0 = x + 0
    simp [presum]
  | succ k ih =>
    show presum (x :: l) (k + 1) + (x :: l).getD (k + 1) 0 =
      x + (presum l k + l.getD k 0)
    rw [ih, List.getD_cons_succ]
    ring

theorem cumsumFrom_getD (l : List ℚ) :
    ∀ (t : Nat) (acc : ℚ), t < l.length →
      (cumsumFrom acc l).getD t 0 = acc + presum l (t + 1) := by
  induction l with
  | nil => intro t acc h; simp at h
  | cons x xs ih =>
    intro t acc h
    cases t with
    | zero =>
      show qadd acc x = acc + presum (x :: xs) 1
      rw [qadd_eq]
      show acc + x = acc + (presum (x :: xs) 0 + (x :: xs).getD 0 0)
      simp [presum]
    | succ k =>
      show (cumsumFrom (qadd acc x) xs).getD k 0 = _
      rw [ih k (qadd acc x) (by simpa using h), qadd_eq, presum_cons]
      ring

theorem cumsum_len (l : List ℚ) : (cumsum l).length = l.length := by
  unfold cumsum
  generalize (0 : ℚ) = acc
  induction l generalizing acc with
  | nil => rfl
  | cons x xs ih =>
    show (cumsumFrom (qadd acc x) xs).length + 1 = xs.length + 1
    rw [ih]

theorem getD_map_qmul (sc : ℚ) :
    ∀ (l : List ℚ) (t : Nat), t < l.length →
      (l.map (fun x => qmul x sc)).getD t 0 = qmul (l.getD t 0) sc := by
  intro l
  induction l with
  | nil => intro t h; simp at h
  | cons x xs ih =>
    intro t h
    cases t with
    | zero => rfl
    | succ k =>
      show (xs.map (fun x => qmul x sc)).getD k 0 = qmul (xs.getD k 0) sc
      exact ih k (by simpa using h)

theorem getD_replicate (n s : Nat) :
    (List.replicate n (0 : ℚ)).getD s 0 = 0 := by
  induction n generalizing s with
  | zero => cases s <;> rfl
  | succ k ih =>
    cases s with
    | zero => rfl
    | succ j => exact ih j

/-! ## Counting facts about the contact loop -/

/-- Facts preserved by infections (and hence by the whole contact loop):
the six counting rows are untouched, the resolved-dead class of every
person is unchanged (so is its count), non-susceptible people are not
modified at all, dates persist, and the person invariant is maintained. -/
structure CCnt (σ σ' : SimSt) : Prop where
  plen : σ'.people.length = σ.people.length
  sus : σ'.r_n_susceptible = σ.r_n_susceptible
  expo : σ'.r_n_exposed = σ.r_n_exposed
  recC : σ'.r_n_recovered = σ.r_n_recovered
  recov : σ'.r_recoveries = σ.r_recoveries
  deaths : σ'.r_deaths = σ.r_deaths
  ninf : σ'.r_n_infectious = σ.r_n_infectious
  classPres : ∀ j, classD (σ'.people.getD j default) =
    classD (σ.people.getD j default)
  nonSusPres : ∀ j, (σ.people.getD j default).susceptible = false →
    σ'.people.getD j default = σ.people.getD j default
  dcnt : dcount σ'.people = dcount σ.people
  persist : (∀ p ∈ σ.people, PInv p) →
    ∀ j, dPersist (σ.people.getD j default) (σ'.people.getD j default)
  inv : (∀ p ∈ σ.people, PInv p) → ∀ p ∈ σ'.people, PInv p

theorem ccnt_rfl {σ : SimSt} : CCnt σ σ :=
  ⟨by rfl, by rfl, by rfl, by rfl, by rfl, by rfl, by rfl, fun _ => by rfl,
   fun _ _ => by rfl, by rfl, fun _ _ => dPersist_rfl, fun h => h⟩

theorem ccnt_trans {σ1 σ2 σ3 : SimSt} (a : CCnt σ1 σ2) (b : CCnt σ2 σ3) :
    CCnt σ1 σ3 := by
  refine ⟨b.plen.trans a.plen,
    b.sus.trans a.sus, b.expo.trans a.expo, b.recC.trans a.recC,
    b.recov.trans a.recov, b.deaths.trans a.deaths, b.ninf.trans a.ninf,
    fun j => (b.classPres j).trans (a.classPres j), ?_,
    b.dcnt.trans a.dcnt, ?_, fun h => b.inv (a.inv h)⟩
  · intro j hj
    rw [b.nonSusPres j (by rw [a.nonSusPres j hj]; exact hj),
      a.nonSusPres j hj]
  · intro h j
    exact dPersist_trans (a.persist h j) (b.persist (a.inv h) j)

theorem infectPerson_cnt (g : Nat → Nat) (σ : SimSt) (srcUid tgtIdx t : Nat)
    (σ' : SimSt) (hb : tgtIdx < σ.people.length)
    (hsus : (σ.people.getD tgtIdx default).susceptible = true)
    (h : infectPerson g σ srcUid tgtIdx t = .ok σ') : CCnt σ σ' := by
  have hclassOld : classD (σ.people.getD tgtIdx default) = false := by
    simp only [classD, hsus, Bool.not_true, Bool.false_and]
  unfold infectPerson at h
  simp only [sampleDraw, btDraw, normalRoundDraw, drawNat] at h
  repeat' split at h
  all_goals cases h
  · refine ⟨by simp, rfl, rfl, rfl, rfl, rfl, rfl, ?_, ?_, ?_, ?_, ?_⟩
    · intro j
      by_cases hj : tgtIdx = j
      · subst hj
        rw [getD_set_self _ _ _ _ (by simpa using hb), hclassOld]
        rfl
      · rw [getD_set_ne _ _ _ _ _ hj]
    · intro j hj
      by_cases hje : tgtIdx = j
      · subst hje
        rw [hsus] at hj
        cases hj
      · exact getD_set_ne _ _ _ _ _ hje
    · exact countP_set_eq classD σ.people tgtIdx _ hb
        (by rw [hclassOld]; rfl)
    · intro hOK j
      obtain ⟨hexp0, hrec0, hinf0, hde, hdi, hdr, hdd⟩ :=
        (hOK _ (getD_mem _ _ _ hb)).1 hsus
      by_cases hj : tgtIdx = j
      · subst hj
        rw [getD_set_self _ _ _ _ (by simpa using hb)]
        exact ⟨fun v hv => Option.noConfusion (hde.symm.trans hv),
               fun v hv => Option.noConfusion (hdi.symm.trans hv),
               fun v hv => Option.noConfusion (hdr.symm.trans hv),
               fun v hv => Option.noConfusion (hdd.symm.trans hv)⟩
      · rw [getD_set_ne _ _ _ _ _ hj]
        exact dPersist_rfl
    · intro hOK
      obtain ⟨hexp0, hrec0, hinf0, hde, hdi, hdr, hdd⟩ :=
        (hOK _ (getD_mem _ _ _ hb)).1 hsus
      refine pinv_set _ _ _ hOK
        ⟨fun hx => Bool.noConfusion hx, fun _ => hrec0, fun _ => rfl,
         Or.inr hdr, ?_, ?_, ?_⟩
      · intro e i he hi
        injection he with he
        injection hi with hi
        omega
      · exact fun r hr => Option.noConfusion (hdr.symm.trans hr)
      · intro d hd
        injection hd with hd
        exact ⟨t, rfl, by omega⟩
  · refine ⟨by simp, rfl, rfl, rfl, rfl, rfl, rfl, ?_, ?_, ?_, ?_, ?_⟩
    · intro j
      by_cases hj : tgtIdx = j
      · subst hj
        rw [getD_set_self _ _ _ _ (by simpa using hb), hclassOld]
        rfl
      · rw [getD_set_ne _ _ _ _ _ hj]
    · intro j hj
      by_cases hje : tgtIdx = j
      · subst hje
        rw [hsus] at hj
        cases hj
      · exact getD_set_ne _ _ _ _ _ hje
    · exact countP_set_eq classD σ.people tgtIdx _ hb
        (by rw [hclassOld]; rfl)
    · intro hOK j
      obtain ⟨hexp0, hrec0, hinf0, hde, hdi, hdr, hdd⟩ :=
        (hOK _ (getD_mem _ _ _ hb)).1 hsus
      by_cases hj : tgtIdx = j
      · subst hj
        rw [getD_set_self _ _ _ _ (by simpa using hb)]
        exact ⟨fun v hv => Option.noConfusion (hde.symm.trans hv),
               fun v hv => Option.noConfusion (hdi.symm.trans hv),
               fun v hv => Option.noConfusion (hdr.symm.trans hv),
               fun v hv => Option.noConfusion (hdd.symm.trans hv)⟩
      · rw [getD_set_ne _ _ _ _ _ hj]
        exact dPersist_rfl
    · intro hOK
      obtain ⟨hexp0, hrec0, hinf0, hde, hdi, hdr, hdd⟩ :=
        (hOK _ (getD_mem _ _ _ hb)).1 hsus
      refine pinv_set _ _ _ hOK
        ⟨fun hx => Bool.noConfusion hx, fun _ => hrec0, fun _ => rfl,
         Or.inl hdd, ?_, ?_, ?_⟩
      · intro e i he hi
        injection he with he
        injection hi with hi
        omega
      · intro r hr
        injection hr with hr
        exact ⟨_, rfl, by omega⟩
      · exact fun d hd => Option.noConfusion (hdd.symm.trans hd)

theorem contactLoop_cnt (g : Nat → Nat) (t srcUid : Nat) :
    ∀ (inds : List Nat) (σ σ' : SimSt),
      contactLoop g t srcUid inds σ = .ok σ' → CCnt σ σ' := by
  intro inds
  induction inds with
  | nil =>
    intro σ σ' h
    cases h
    exact ccnt_rfl
  | cons ind rest ih =>
    intro σ σ' h
    unfold contactLoop at h
    simp only [btDraw, drawNat] at h
    split at h
    · cases h
    · split at h
      · cases h
      · split at h
        · cases h
        · split at h
          · split at h
            · split at h
              · split at h
                · cases h
                · rename_i hexp hlt hs σmid hinf
                  have base : CCnt σ
                      { σ with rix := σ.rix + 1,
                               r_infections := bump σ.r_infections t 1 } :=
                    ⟨rfl, rfl, rfl, rfl, rfl, rfl, rfl, fun _ => rfl,
                     fun _ _ => rfl, rfl, fun _ _ => dPersist_rfl,
                     fun hp => hp⟩
                  exact ccnt_trans (ccnt_trans base
                    (infectPerson_cnt g _ srcUid ind t _ hexp hlt hinf))
                    (ih _ _ h)
              · have base : CCnt σ { σ with rix := σ.rix + 1 } :=
                  ⟨rfl, rfl, rfl, rfl, rfl, rfl, rfl, fun _ => rfl,
                   fun _ _ => rfl, rfl, fun _ _ => dPersist_rfl,
                   fun hp => hp⟩
                exact ccnt_trans base (ih _ _ h)
            · cases h
          · have base : CCnt σ { σ with rix := σ.rix + 1 } :=
              ⟨rfl, rfl, rfl, rfl, rfl, rfl, rfl, fun _ => rfl,
               fun _ _ => rfl, rfl, fun _ _ => dPersist_rfl,
               fun hp => hp⟩
            exact ccnt_trans base (ih _ _ h)

/-- Counting facts of one piece of a person visit on day `t` at index
`i`: row shapes and off-day entries are kept, every other person keeps
its resolved-dead class, dates persist, the person invariant holds
afterwards, and the day-`t` rows move by `extra` into the S+E+R sum
plus one per counted recovery, deaths matching the resolved-dead
count. -/
structure VCnt (t i : Nat) (extra : ℚ) (σ σ' : SimSt) : Prop where
  plen : σ'.people.length = σ.people.length
  sus_len : σ'.r_n_susceptible.length = σ.r_n_susceptible.length
  exp_len : σ'.r_n_exposed.length = σ.r_n_exposed.length
  rec_len : σ'.r_n_recovered.length = σ.r_n_recovered.length
  recov_len : σ'.r_recoveries.length = σ.r_recoveries.length
  deaths_len : σ'.r_deaths.length = σ.r_deaths.length
  sus_other : ∀ s, s ≠ t →
    σ'.r_n_susceptible.getD s 0 = σ.r_n_susceptible.getD s 0
  exp_other : ∀ s, s ≠ t →
    σ'.r_n_exposed.getD s 0 = σ.r_n_exposed.getD s 0
  rec_other : ∀ s, s ≠ t →
    σ'.r_n_recovered.getD s 0 = σ.r_n_recovered.getD s 0
  recov_other : ∀ s, s ≠ t →
    σ'.r_recoveries.getD s 0 = σ.r_recoveries.getD s 0
  deaths_other : ∀ s, s ≠ t →
    σ'.r_deaths.getD s 0 = σ.r_deaths.getD s 0
  classPres : ∀ j, j ≠ i → classD (σ'.people.getD j default) =
    classD (σ.people.getD j default)
  persist : ∀ j, dPersist (σ.people.getD j default)
    (σ'.people.getD j default)
  inv : ∀ p ∈ σ'.people, PInv p
  ser : SER σ' t + σ.r_recoveries.getD t 0 =
    SER σ t + extra + σ'.r_recoveries.getD t 0
  dcnt : (dcount σ'.people : ℚ) + σ.r_deaths.getD t 0 =
    (dcount σ.people : ℚ) + σ'.r_deaths.getD t 0

theorem vcnt_trans {t i : Nat} {e1 e2 : ℚ} {σ1 σ2 σ3 : SimSt}
    (a : VCnt t i e1 σ1 σ2) (b : VCnt t i e2 σ2 σ3) :
    VCnt t i (e1 + e2) σ1 σ3 := by
  refine ⟨b.plen.trans a.plen, b.sus_len.trans a.sus_len,
    b.exp_len.trans a.exp_len, b.rec_len.trans a.rec_len,
    b.recov_len.trans a.recov_len, b.deaths_len.trans a.deaths_len,
    fun s hs => (b.sus_other s hs).trans (a.sus_other s hs),
    fun s hs => (b.exp_other s hs).trans (a.exp_other s hs),
    fun s hs => (b.rec_other s hs).trans (a.rec_other s hs),
    fun s hs => (b.recov_other s hs).trans (a.recov_other s hs),
    fun s hs => (b.deaths_other s hs).trans (a.deaths_other s hs),
    fun j hj => (b.classPres j hj).trans (a.classPres j hj),
    fun j => dPersist_trans (a.persist j) (b.persist j), b.inv, ?_, ?_⟩
  · have ha := a.ser
    have hb := b.ser
    linarith
  · have ha := a.dcnt
    have hb := b.dcnt
    linarith

theorem vcnt_cast {t i : Nat} {e : ℚ} {σ σ' : SimSt}
    (a : VCnt t i e σ σ') {e' : ℚ} (h : e = e') : VCnt t i e' σ σ' :=
  h ▸ a

/-- The testing-probability step only touches the testing-weight
table. -/
theorem tpStep_shape (σ : SimSt) (p : Person) (σa : SimSt)
    (h : tpStep σ p = .ok σa) :
    ∃ tp, σa = { σ with testProbs := tp } := by
  unfold tpStep at h
  repeat' split at h
  all_goals cases h
  all_goals exact ⟨_, rfl⟩

theorem eq_false_of_ne_true {b : Bool} (h : ¬ b = true) : b = false := by
  cases b
  · rfl
  · exact absurd rfl h

theorem bool_false_ne_true : ¬(false = true) := fun hx => Bool.noConfusion hx

/-- The death check, the recovery-or-contacts step and the final
recovered count for a non-susceptible exposed person: together a `VCnt`
piece contributing nothing beyond its counted recovery. -/
theorem resolve_cnt (g : Nat → Nat) (t i : Nat) (σb : SimSt) (q : Person)
    (pσ3 : Person × SimSt) (σ' : SimSt)
    (hq : σb.people.getD i default = q)
    (hb : i < σb.people.length)
    (hOKb : ∀ p ∈ σb.people, PInv p)
    (hqsus : q.susceptible = false) (hqexp : q.exposed = true)
    (htr : t < σb.r_n_recovered.length)
    (htv : t < σb.r_recoveries.length)
    (htd : t < σb.r_deaths.length)
    (hro : recovOrContacts g t i (deathStep t i σb q).2
      (deathStep t i σb q).1 = .ok pσ3)
    (hlast : (if pσ3.1.recovered then
        Except.ok { pσ3.2 with
          r_n_recovered := bump pσ3.2.r_n_recovered t 1 }
      else Except.ok pσ3.2) = (Except.ok σ' : Except Err SimSt)) :
    VCnt t i 0 σb σ' := by
  have hpq : PInv q := hq ▸ hOKb _ (getD_mem _ _ _ hb)
  have hqrec : q.recovered = false := hpq.2.1 hqexp
  have hcq : classD q = false := by
    simp only [classD, hqsus, hqexp, Bool.not_true, Bool.not_false,
      Bool.true_and, Bool.false_and]
  by_cases hdie : dateTrig q.date_died t = true
  · -- the death day triggers: the person is resolved dead, counted as a
    -- death, and still walks the contact path
    have hdr_none : q.date_recovered = none := by
      rcases hpq.2.2.2.1 with hdd | hdr
      · exact absurd hdie (by simp [dateTrig, hdd])
      · exact hdr
    have hpdi : PInv { q with exposed := false, infectious := false, recovered := false, died := true } :=
      ⟨fun hx => Bool.noConfusion (hqsus.symm.trans hx),
       fun hx => Bool.noConfusion hx, fun hx => Bool.noConfusion hx,
       Or.inr hdr_none, hpq.2.2.2.2.1, hpq.2.2.2.2.2.1, hpq.2.2.2.2.2.2⟩
    have hOK2 : ∀ p ∈ σb.people.set i { q with exposed := false, infectious := false, recovered := false, died := true }, PInv p :=
      pinv_set _ _ _ hOKb hpdi
    unfold deathStep at hro
    rw [if_pos hdie] at hro
    dsimp only at hro
    unfold recovOrContacts at hro
    split at hro
    · rename_i hrt
      exact absurd hrt (by simp [dateTrig, hdr_none])
    · simp only [ptDraw, drawNat] at hro
      split at hro
      · cases hro
      · split at hro
        · cases hro
        · rename_i σ3 hcl
          cases hro
          rw [chooseDraws_state] at hcl
          have c := contactLoop_cnt g t _ _ _ _ hcl
          split at hlast
          · rename_i hxr
            exact absurd hxr (by simp)
          · cases hlast
            show VCnt t i 0 σb σ3
            refine ⟨c.plen.trans (by simp), by rw [c.sus], by rw [c.expo],
              by rw [c.recC], by rw [c.recov],
              (by rw [c.deaths]; exact bump_len _ _ _),
              fun s _ => by rw [c.sus], fun s _ => by rw [c.expo],
              fun s _ => by rw [c.recC], fun s _ => by rw [c.recov],
              (fun s hs => by
                rw [c.deaths]; exact bump_getD_other _ _ _ _ hs),
              ?_, ?_, c.inv hOK2, ?_, ?_⟩
            · intro j hj
              rw [c.classPres j]
              exact congrArg classD (getD_set_ne _ _ _ _ _ (Ne.symm hj))
            · intro j
              by_cases hj : i = j
              · subst hj
                rw [hq]
                have h2 : dPersist ((σb.people.set i { q with exposed := false, infectious := false, recovered := false, died := true }).getD i default)
                    (σ3.people.getD i default) := c.persist hOK2 i
                rw [getD_set_self _ _ _ _ hb] at h2
                exact dPersist_trans ⟨fun _ hv => hv, fun _ hv => hv,
                  fun _ hv => hv, fun _ hv => hv⟩ h2
              · have h2 : dPersist ((σb.people.set i { q with exposed := false, infectious := false, recovered := false, died := true }).getD j default)
                    (σ3.people.getD j default) := c.persist hOK2 j
                rw [getD_set_ne _ _ _ _ _ hj] at h2
                exact h2
            · have hs1 : σ3.r_n_susceptible = σb.r_n_susceptible := by
                rw [c.sus]
              have hs2 : σ3.r_n_exposed = σb.r_n_exposed := by rw [c.expo]
              have hs3 : σ3.r_n_recovered = σb.r_n_recovered := by
                rw [c.recC]
              have hs4 : σ3.r_recoveries = σb.r_recoveries := by
                rw [c.recov]
              unfold SER
              rw [hs1, hs2, hs3, hs4]
              ring
            · have hda : σ3.r_deaths = bump σb.r_deaths t 1 := by
                rw [c.deaths]
              have h5 : dcount σ3.people = dcount σb.people + 1 := by
                have h6 : dcount σ3.people = dcount (σb.people.set i { q with exposed := false, infectious := false, recovered := false, died := true }) := c.dcnt
                rw [h6]
                exact countP_set_flip classD σb.people i _ hb
                  (by rw [hq]; exact hcq) (by simp [classD, hqsus])
              rw [h5, hda, bump_getD_self _ _ _ htd]
              push_cast
              ring
  · -- no death today
    unfold deathStep at hro
    rw [if_neg hdie] at hro
    dsimp only at hro
    unfold recovOrContacts at hro
    split at hro
    · -- the recovery day triggers: resolve and count the recovery
      rename_i hrt
      dsimp only at hro
      cases hro
      have hdd_none : q.date_died = none := by
        rcases hpq.2.2.2.1 with hdd | hdr
        · exact hdd
        · exact absurd hrt (by simp [dateTrig, hdr])
      have hpri : PInv { q with exposed := false, infectious := false, recovered := true } :=
        ⟨fun hx => Bool.noConfusion (hqsus.symm.trans hx),
         fun hx => Bool.noConfusion hx, fun hx => Bool.noConfusion hx,
         Or.inl hdd_none, hpq.2.2.2.2.1, hpq.2.2.2.2.2.1, hpq.2.2.2.2.2.2⟩
      have hcpr : classD { q with exposed := false, infectious := false, recovered := true } = false := by
        simp only [classD, hqsus, Bool.not_false, Bool.not_true,
          Bool.true_and, Bool.and_false]
      split at hlast
      · cases hlast
        refine ⟨by simp, rfl, rfl, bump_len _ _ _, bump_len _ _ _, rfl,
          fun _ _ => rfl, fun _ _ => rfl,
          fun s hs => bump_getD_other _ _ _ _ hs,
          fun s hs => bump_getD_other _ _ _ _ hs, fun _ _ => rfl,
          ?_, ?_, ?_, ?_, ?_⟩
        · intro j hj
          show classD ((σb.people.set i { q with exposed := false, infectious := false, recovered := true }).getD j default) =
            classD (σb.people.getD j default)
          rw [getD_set_ne _ _ _ _ _ (Ne.symm hj)]
        · intro j
          by_cases hj : i = j
          · subst hj
            rw [hq]
            show dPersist q ((σb.people.set i { q with exposed := false, infectious := false, recovered := true }).getD i default)
            rw [getD_set_self _ _ _ _ hb]
            exact ⟨fun _ hv => hv, fun _ hv => hv, fun _ hv => hv,
              fun _ hv => hv⟩
          · show dPersist (σb.people.getD j default)
              ((σb.people.set i { q with exposed := false, infectious := false, recovered := true }).getD j default)
            rw [getD_set_ne _ _ _ _ _ hj]
            exact dPersist_rfl
        · exact pinv_set σb.people i _ hOKb hpri
        · unfold SER
          dsimp only
          rw [bump_getD_self _ _ _ htr, bump_getD_self _ _ _ htv]
          ring
        · have h5 : dcount (σb.people.set i { q with exposed := false, infectious := false, recovered := true }) =
              dcount σb.people :=
            countP_set_eq classD _ _ _ hb (by rw [hq, hcpr, hcq])
          show (dcount (σb.people.set i { q with exposed := false, infectious := false, recovered := true }) : ℚ) +
            σb.r_deaths.getD t 0 =
            (dcount σb.people : ℚ) + σb.r_deaths.getD t 0
          rw [h5]
      · rename_i hxr
        exact absurd rfl hxr
    · -- neither day triggers: the contact path, person unchanged
      rename_i hrt
      simp only [ptDraw, drawNat] at hro
      split at hro
      · cases hro
      · split at hro
        · cases hro
        · rename_i σ3 hcl
          cases hro
          rw [chooseDraws_state] at hcl
          have c := contactLoop_cnt g t _ _ _ _ hcl
          split at hlast
          · rename_i hxr
            exact Bool.noConfusion (hqrec.symm.trans hxr)
          · cases hlast
            show VCnt t i 0 σb σ3
            refine ⟨c.plen, by rw [c.sus], by rw [c.expo], by rw [c.recC],
              by rw [c.recov], by rw [c.deaths],
              fun s _ => by rw [c.sus], fun s _ => by rw [c.expo],
              fun s _ => by rw [c.recC], fun s _ => by rw [c.recov],
              fun s _ => by rw [c.deaths],
              fun j _ => c.classPres j, fun j => c.persist hOKb j,
              c.inv hOKb, ?_, ?_⟩
            · have hs1 : σ3.r_n_susceptible = σb.r_n_susceptible := by
                rw [c.sus]
              have hs2 : σ3.r_n_exposed = σb.r_n_exposed := by rw [c.expo]
              have hs3 : σ3.r_n_recovered = σb.r_n_recovered := by
                rw [c.recC]
              have hs4 : σ3.r_recoveries = σb.r_recoveries := by
                rw [c.recov]
              unfold SER
              rw [hs1, hs2, hs3, hs4]
              ring
            · have h5 : dcount σ3.people = dcount σb.people := c.dcnt
              have hda : σ3.r_deaths = σb.r_deaths := by rw [c.deaths]
              rw [h5, hda]

/-- One person visit: a `VCnt` whose S+E+R contribution is one for live
people and zero for the resolved dead. -/
theorem visitOne_cnt (g : Nat → Nat) (t i : Nat) (σ σ' : SimSt)
    (hOK : ∀ p ∈ σ.people, PInv p) (hb : i < σ.people.length)
    (hts : t < σ.r_n_susceptible.length) (hte : t < σ.r_n_exposed.length)
    (htr : t < σ.r_n_recovered.length) (htv : t < σ.r_recoveries.length)
    (htd : t < σ.r_deaths.length)
    (h : visitOne g t i σ = .ok σ') :
    VCnt t i (if classD (σ.people.getD i default) then 0 else 1) σ σ' := by
  have hp : PInv (σ.people.getD i default) := hOK _ (getD_mem _ _ _ hb)
  unfold visitOne at h
  dsimp only at h
  by_cases hsus : (σ.people.getD i default).susceptible = true
  · rw [if_pos hsus] at h
    cases h
    have hcp : classD (σ.people.getD i default) = false := by
      simp only [classD, hsus, Bool.not_true, Bool.false_and]
    refine vcnt_cast (?_ : VCnt t i 1 σ _) (by rw [hcp]; norm_num)
    refine ⟨rfl, bump_len _ _ _, rfl, rfl, rfl, rfl,
      fun s hs => bump_getD_other _ _ _ _ hs, fun _ _ => rfl,
      fun _ _ => rfl, fun _ _ => rfl, fun _ _ => rfl, fun _ _ => rfl,
      fun _ => dPersist_rfl, hOK, ?_, rfl⟩
    unfold SER
    dsimp only
    rw [bump_getD_self _ _ _ hts]
    ring
  · have hsusF : (σ.people.getD i default).susceptible = false :=
      eq_false_of_ne_true hsus
    rw [if_neg hsus] at h
    cases htp : tpStep σ (σ.people.getD i default) with
    | error e =>
      rw [htp] at h
      cases h
    | ok σa =>
      rw [htp] at h
      dsimp only at h
      obtain ⟨tp, rfl⟩ := tpStep_shape σ _ σa htp
      have V1 : VCnt t i 0 σ { σ with testProbs := tp } :=
        ⟨rfl, rfl, rfl, rfl, rfl, rfl, fun _ _ => rfl, fun _ _ => rfl,
         fun _ _ => rfl, fun _ _ => rfl, fun _ _ => rfl, fun _ _ => rfl,
         fun _ => dPersist_rfl, hOK, by unfold SER; dsimp only; ring, rfl⟩
      by_cases hexp : (σ.people.getD i default).exposed = true
      · have hrecF : (σ.people.getD i default).recovered = false :=
          hp.2.1 hexp
        have hcp : classD (σ.people.getD i default) = false := by
          simp only [classD, hexp, Bool.not_true, Bool.false_and,
            Bool.and_false]
        by_cases hinf : (σ.people.getD i default).infectious = true
        · -- already infectious: no promotion, straight to resolution
          have he : expoStep t i { σ with testProbs := tp }
              (σ.people.getD i default) =
              (σ.people.getD i default,
               { σ with testProbs := tp,
                        r_n_exposed := bump σ.r_n_exposed t 1 }) := by
            unfold expoStep
            rw [if_pos hexp, if_neg (by simp only [hinf, Bool.not_true, Bool.false_and]; exact bool_false_ne_true)]
          rw [he] at h
          dsimp only at h
          rw [if_pos hinf] at h
          split at h
          · cases h
          · rename_i pσ3 hro
            have V2 : VCnt t i 1 { σ with testProbs := tp }
                { σ with testProbs := tp,
                         r_n_exposed := bump σ.r_n_exposed t 1 } :=
              ⟨rfl, rfl, bump_len _ _ _, rfl, rfl, rfl, fun _ _ => rfl,
               fun s hs => bump_getD_other _ _ _ _ hs, fun _ _ => rfl,
               fun _ _ => rfl, fun _ _ => rfl, fun _ _ => rfl,
               fun _ => dPersist_rfl, hOK,
               by unfold SER; dsimp only; rw [bump_getD_self _ _ _ hte];
                  ring,
               rfl⟩
            have V3 := resolve_cnt g t i _ _ pσ3 σ' (by exact rfl)
              (by exact hb) (by exact hOK) (by exact hsusF)
              (by exact hexp) (by exact htr) (by exact htv) (by exact htd)
              hro h
            exact vcnt_cast (vcnt_trans V1 (vcnt_trans V2 V3)) (by rw [hcp]; norm_num)
        · have hinfF : (σ.people.getD i default).infectious = false :=
            eq_false_of_ne_true hinf
          by_cases hdat : decide
            ((σ.people.getD i default).date_infectious.getD 0 ≤ t) = true
          · -- promotion to infectious, then resolution
            have he : expoStep t i { σ with testProbs := tp }
                (σ.people.getD i default) =
                ({ σ.people.getD i default with infectious := true },
                 { σ with testProbs := tp,
                          r_n_exposed := bump σ.r_n_exposed t 1,
                          people := σ.people.set i { σ.people.getD i default with infectious := true } }) := by
              unfold expoStep
              rw [if_pos hexp, if_pos (by simp only [hinfF, Bool.not_false, Bool.true_and]; exact hdat)]
            rw [he] at h
            dsimp only at h
            split at h
            · cases h
            · rename_i pσ3 hro
              have hp1i : PInv { σ.people.getD i default with infectious := true } :=
                ⟨fun hx => absurd hx hsus, fun _ => hrecF, fun _ => hexp,
                 hp.2.2.2.1, hp.2.2.2.2.1, hp.2.2.2.2.2.1,
                 hp.2.2.2.2.2.2⟩
              have hOK2 : ∀ p ∈ σ.people.set i { σ.people.getD i default with infectious := true }, PInv p :=
                pinv_set _ _ _ hOK hp1i
              have V2 : VCnt t i 1 { σ with testProbs := tp }
                  { σ with testProbs := tp,
                           r_n_exposed := bump σ.r_n_exposed t 1,
                           people := σ.people.set i { σ.people.getD i default with infectious := true } } := by
                refine ⟨by simp, rfl, bump_len _ _ _, rfl, rfl, rfl,
                  fun _ _ => rfl, fun s hs => bump_getD_other _ _ _ _ hs,
                  fun _ _ => rfl, fun _ _ => rfl, fun _ _ => rfl,
                  ?_, ?_, hOK2, ?_, ?_⟩
                · intro j hj
                  exact congrArg classD (getD_set_ne _ _ _ _ _
                    (Ne.symm hj))
                · intro j
                  by_cases hj : i = j
                  · subst hj
                    show dPersist (σ.people.getD i default)
                      ((σ.people.set i { σ.people.getD i default with infectious := true }).getD i default)
                    rw [getD_set_self _ _ _ _ hb]
                    exact ⟨fun _ hv => hv, fun _ hv => hv, fun _ hv => hv,
                      fun _ hv => hv⟩
                  · show dPersist (σ.people.getD j default)
                      ((σ.people.set i { σ.people.getD i default with infectious := true }).getD j default)
                    rw [getD_set_ne _ _ _ _ _ hj]
                    exact dPersist_rfl
                · unfold SER
                  dsimp only
                  rw [bump_getD_self _ _ _ hte]
                  ring
                · have h5 : dcount (σ.people.set i { σ.people.getD i default with infectious := true }) = dcount σ.people :=
                    countP_set_eq classD _ _ _ hb rfl
                  show (dcount (σ.people.set i { σ.people.getD i default with infectious := true }) : ℚ) +
                    σ.r_deaths.getD t 0 =
                    (dcount σ.people : ℚ) + σ.r_deaths.getD t 0
                  rw [h5]
              have V3 := resolve_cnt g t i _ _ pσ3 σ'
                (by exact getD_set_self σ.people i { σ.people.getD i default with infectious := true } default hb)
                (by simpa using hb) (by exact hOK2) (by exact hsusF)
                (by exact hexp) (by exact htr) (by exact htv)
                (by exact htd) hro h
              exact vcnt_cast (vcnt_trans V1 (vcnt_trans V2 V3)) (by rw [hcp]; norm_num)
          · -- exposed, not yet infectious: only the exposed count moves
            have he : expoStep t i { σ with testProbs := tp }
                (σ.people.getD i default) =
                (σ.people.getD i default,
                 { σ with testProbs := tp,
                          r_n_exposed := bump σ.r_n_exposed t 1 }) := by
              unfold expoStep
              rw [if_pos hexp, if_neg (by intro hx; simp only [Bool.and_eq_true] at hx; exact hdat hx.2)]
            rw [he] at h
            dsimp only at h
            rw [if_neg hinf] at h
            dsimp only at h
            rw [if_neg (by simp only [hrecF]; exact bool_false_ne_true)] at h
            cases h
            have V2 : VCnt t i 1 { σ with testProbs := tp }
                { σ with testProbs := tp,
                         r_n_exposed := bump σ.r_n_exposed t 1 } :=
              ⟨rfl, rfl, bump_len _ _ _, rfl, rfl, rfl, fun _ _ => rfl,
               fun s hs => bump_getD_other _ _ _ _ hs, fun _ _ => rfl,
               fun _ _ => rfl, fun _ _ => rfl, fun _ _ => rfl,
               fun _ => dPersist_rfl, hOK,
               by unfold SER; dsimp only; rw [bump_getD_self _ _ _ hte];
                  ring,
               rfl⟩
            exact vcnt_cast (vcnt_trans V1 V2) (by rw [hcp]; norm_num)
      · -- not exposed: recovered or resolved dead
        have hexpF : (σ.people.getD i default).exposed = false :=
          eq_false_of_ne_true hexp
        have hinfF0 : (σ.people.getD i default).infectious = false := by
          cases hbv : (σ.people.getD i default).infectious
          · rfl
          · exact absurd (hp.2.2.1 hbv) hexp
        have he : expoStep t i { σ with testProbs := tp }
            (σ.people.getD i default) =
            (σ.people.getD i default, { σ with testProbs := tp }) := by
          unfold expoStep
          rw [if_neg hexp]
        rw [he] at h
        dsimp only at h
        rw [if_neg (by simp only [hinfF0]; exact bool_false_ne_true)] at h
        dsimp only at h
        by_cases hrec : (σ.people.getD i default).recovered = true
        · rw [if_pos hrec] at h
          cases h
          have hcp : classD (σ.people.getD i default) = false := by
            simp only [classD, hrec, Bool.not_true, Bool.and_false]
          refine vcnt_cast (vcnt_trans V1 (?_ : VCnt t i 1 _ _))
            (by rw [hcp]; norm_num)
          refine ⟨rfl, rfl, rfl, bump_len _ _ _, rfl, rfl,
            fun _ _ => rfl, fun _ _ => rfl,
            fun s hs => bump_getD_other _ _ _ _ hs, fun _ _ => rfl,
            fun _ _ => rfl, fun _ _ => rfl, fun _ => dPersist_rfl, hOK,
            ?_, rfl⟩
          unfold SER
          dsimp only
          rw [bump_getD_self _ _ _ htr]
          ring
        · rw [if_neg hrec] at h
          cases h
          have hrecF0 : (σ.people.getD i default).recovered = false :=
            eq_false_of_ne_true hrec
          have hcpT : classD (σ.people.getD i default) = true := by
            simp only [classD, hsusF, hexpF, hrecF0, Bool.not_false,
              Bool.true_and]
          exact vcnt_cast V1 (by rw [hcpT]; norm_num)

/-- The whole person loop over a window of indices: the S+E+R rows move
by the number of live people in the window plus the counted recoveries,
and deaths match the growth of the resolved-dead count. -/
theorem visitLoop_cnt (g : Nat → Nat) (t : Nat) :
    ∀ (fuel i : Nat) (σ σ' : SimSt),
      visitLoop g t i fuel σ = .ok σ' →
      (∀ p ∈ σ.people, PInv p) →
      i + fuel ≤ σ.people.length →
      t < σ.r_n_susceptible.length → t < σ.r_n_exposed.length →
      t < σ.r_n_recovered.length → t < σ.r_recoveries.length →
      t < σ.r_deaths.length →
      (σ'.people.length = σ.people.length ∧
       σ'.r_n_susceptible.length = σ.r_n_susceptible.length ∧
       σ'.r_n_exposed.length = σ.r_n_exposed.length ∧
       σ'.r_n_recovered.length = σ.r_n_recovered.length ∧
       σ'.r_recoveries.length = σ.r_recoveries.length ∧
       σ'.r_deaths.length = σ.r_deaths.length) ∧
      ((∀ s, s ≠ t → σ'.r_n_susceptible.getD s 0 =
          σ.r_n_susceptible.getD s 0) ∧
       (∀ s, s ≠ t → σ'.r_n_exposed.getD s 0 = σ.r_n_exposed.getD s 0) ∧
       (∀ s, s ≠ t → σ'.r_n_recovered.getD s 0 =
          σ.r_n_recovered.getD s 0) ∧
       (∀ s, s ≠ t → σ'.r_recoveries.getD s 0 =
          σ.r_recoveries.getD s 0) ∧
       (∀ s, s ≠ t → σ'.r_deaths.getD s 0 = σ.r_deaths.getD s 0)) ∧
      (∀ j, dPersist (σ.people.getD j default)
        (σ'.people.getD j default)) ∧
      (∀ p ∈ σ'.people, PInv p) ∧
      SER σ' t + σ.r_recoveries.getD t 0 =
        SER σ t + (liveN σ.people i fuel : ℚ) +
          σ'.r_recoveries.getD t 0 ∧
      (dcount σ'.people : ℚ) + σ.r_deaths.getD t 0 =
        (dcount σ.people : ℚ) + σ'.r_deaths.getD t 0 := by
  intro fuel
  induction fuel with
  | zero =>
    intro i σ σ' h hOK _ _ _ _ _ _
    cases h
    refine ⟨⟨rfl, rfl, rfl, rfl, rfl, rfl⟩,
      ⟨fun _ _ => rfl, fun _ _ => rfl, fun _ _ => rfl, fun _ _ => rfl,
       fun _ _ => rfl⟩,
      fun _ => dPersist_rfl, hOK, ?_, by ring⟩
    show SER σ t + σ.r_recoveries.getD t 0 =
      SER σ t + ((0 : Nat) : ℚ) + σ.r_recoveries.getD t 0
    push_cast
    ring
  | succ k ih =>
    intro i σ σ' h hOK hlen hts hte htr htv htd
    unfold visitLoop at h
    split at h
    · cases h
    · rename_i σ1 hv1
      have hbV : i < σ.people.length := by omega
      have V := visitOne_cnt g t i σ σ1 hOK hbV hts hte htr htv htd hv1
      obtain ⟨⟨l0, l1, l2, l3, l4, l5⟩, ⟨o1, o2, o3, o4, o5⟩, pers, inv,
        ser1, dc1⟩ := ih (i + 1) σ1 σ' h V.inv
        (by rw [V.plen]; omega)
        (by rw [V.sus_len]; exact hts) (by rw [V.exp_len]; exact hte)
        (by rw [V.rec_len]; exact htr) (by rw [V.recov_len]; exact htv)
        (by rw [V.deaths_len]; exact htd)
      have hlive : (liveN σ1.people (i + 1) k : ℚ) =
          (liveN σ.people (i + 1) k : ℚ) := by
        have hl := liveN_congr σ.people σ1.people (i + 1)
          (fun j hj => V.classPres j (by omega)) k (i + 1) (le_refl _)
        exact congrArg (fun n : Nat => (n : ℚ)) hl
      have hstep : (liveN σ.people i (k + 1) : ℚ) =
          (if classD (σ.people.getD i default) then 0 else 1) +
            (liveN σ.people (i + 1) k : ℚ) := by
        have hN : liveN σ.people i (k + 1) =
            (if classD (σ.people.getD i default) then 0 else 1) +
              liveN σ.people (i + 1) k := rfl
        rw [hN]
        by_cases hc : classD (σ.people.getD i default) = true
        · rw [if_pos hc, if_pos hc]
          push_cast
          ring
        · rw [if_neg hc, if_neg hc]
          push_cast
          ring
      refine ⟨⟨l0.trans V.plen, l1.trans V.sus_len, l2.trans V.exp_len,
        l3.trans V.rec_len, l4.trans V.recov_len, l5.trans V.deaths_len⟩,
        ⟨fun s hs => (o1 s hs).trans (V.sus_other s hs),
         fun s hs => (o2 s hs).trans (V.exp_other s hs),
         fun s hs => (o3 s hs).trans (V.rec_other s hs),
         fun s hs => (o4 s hs).trans (V.recov_other s hs),
         fun s hs => (o5 s hs).trans (V.deaths_other s hs)⟩,
        fun j => dPersist_trans (V.persist j) (pers j), inv, ?_, ?_⟩
      · have hv := V.ser
        rw [hstep]
        linarith
      · have hv := V.dcnt
        linarith

theorem lookupPar_replace_self (ps : Params) (k : String) (v : ℚ)
    (h : hasKey ps k = true) :
    lookupPar (replacePar ps k v) k = .ok v := by
  induction ps with
  | nil => simp [hasKey] at h
  | cons kv rest ih =>
    simp only [replacePar]
    split
    · rename_i he
      simp [lookupPar, he]
    · rename_i he
      simp only [lookupPar, if_neg he]
      apply ih
      simp only [hasKey, List.any_cons, Bool.or_eq_true] at h
      rcases h with h | h
      · exact absurd (by simpa using h : kv.1 = k) (fun hx => he hx.symm)
      · simpa [hasKey] using h

theorem lookupPar_replace_ne (ps : Params) (k : String) (v : ℚ) (k' : String)
    (h : k' ≠ k) :
    lookupPar (replacePar ps k v) k' = lookupPar ps k' := by
  induction ps with
  | nil => rfl
  | cons kv rest ih =>
    simp only [replacePar]
    split
    · rename_i he
      subst he
      simp only [lookupPar]
      rw [if_neg h, if_neg h]
    · simp only [lookupPar]
      split
      · rfl
      · exact ih

theorem setPar_lookup_self (ps : Params) (k : String) (v : ℚ) (ps' : Params)
    (h : setPar ps k v = .ok ps') : lookupPar ps' k = .ok v := by
  unfold setPar at h
  split at h
  · cases h
    rename_i hk
    exact lookupPar_replace_self ps k v hk
  · cases h

theorem setPar_lookup_ne (ps : Params) (k : String) (v : ℚ) (ps' : Params)
    (h : setPar ps k v = .ok ps') (k' : String) (hk : k' ≠ k) :
    lookupPar ps' k' = lookupPar ps k' := by
  unfold setPar at h
  split at h
  · cases h
    exact lookupPar_replace_ne ps k v k' hk
  · cases h

/-- The intervene step only rewrites the pars, scaling contacts when `t`
equals the intervene day. -/
theorem ivStepA_ok (σ : SimSt) (t : Nat) (σ' : SimSt)
    (h : ivStepA σ t = .ok σ') :
    ∃ ps', σ' = { σ with pars := ps' } ∧
      (∀ k', k' ≠ "contacts" → lookupPar ps' k' = lookupPar σ.pars k') ∧
      (∀ iv eff co,
        lookupPar σ.pars "intervene" = .ok iv →
        lookupPar σ.pars "intervention_eff" = .ok eff →
        lookupPar σ.pars "contacts" = .ok co →
        lookupPar ps' "contacts" =
          .ok (if (t : ℚ) = iv then qmul co (qsub 1 eff) else co)) := by
  unfold ivStepA at h
  split at h
  · cases h
  · rename_i iv0 hiv0
    split at h
    · rename_i hteq
      split at h
      · cases h
      · rename_i co0 hco0
        split at h
        · cases h
        · rename_i eff0 heff0
          split at h
          · cases h
          · rename_i ps0 hset
            cases h
            refine ⟨ps0, by rfl, ?_, ?_⟩
            · intro k' hk'
              exact setPar_lookup_ne _ _ _ _ hset k' hk'
            · intro iv eff co hiv heff hco
              rw [hiv0] at hiv
              rw [heff0] at heff
              rw [hco0] at hco
              cases hiv
              cases heff
              cases hco
              rw [if_pos hteq]
              exact setPar_lookup_self _ _ _ _ hset
    · cases h
      refine ⟨σ.pars, by rfl, fun _ _ => rfl, ?_⟩
      rename_i hteq
      intro iv eff co hiv heff hco
      rw [hiv0] at hiv
      cases hiv
      rw [if_neg hteq]
      exact hco

/-- The unintervene step only rewrites the pars, dividing contacts back
when `t` equals the unintervene day. -/
theorem ivStepB_ok (σ : SimSt) (t : Nat) (σ' : SimSt)
    (h : ivStepB σ t = .ok σ') :
    ∃ ps', σ' = { σ with pars := ps' } ∧
      (∀ k', k' ≠ "contacts" → lookupPar ps' k' = lookupPar σ.pars k') ∧
      (∀ uv eff co,
        lookupPar σ.pars "unintervene" = .ok uv →
        lookupPar σ.pars "intervention_eff" = .ok eff →
        lookupPar σ.pars "contacts" = .ok co →
        lookupPar ps' "contacts" =
          .ok (if (t : ℚ) = uv then qdiv co (qsub 1 eff) else co)) := by
  unfold ivStepB at h
  split at h
  · cases h
  · rename_i uv0 huv0
    split at h
    · rename_i hteq
      split at h
      · cases h
      · rename_i co0 hco0
        split at h
        · cases h
        · rename_i eff0 heff0
          split at h
          · cases h
          · split at h
            · cases h
            · rename_i ps0 hset
              cases h
              refine ⟨ps0, by rfl, ?_, ?_⟩
              · intro k' hk'
                exact setPar_lookup_ne _ _ _ _ hset k' hk'
              · intro uv eff co huv heff hco
                rw [huv0] at huv
                rw [heff0] at heff
                rw [hco0] at hco
                cases huv
                cases heff
                cases hco
                rw [if_pos hteq]
                exact setPar_lookup_self _ _ _ _ hset
    · cases h
      refine ⟨σ.pars, by rfl, fun _ _ => rfl, ?_⟩
      rename_i hteq
      intro uv eff co huv heff hco
      rw [huv0] at huv
      cases huv
      rw [if_neg hteq]
      exact hco

/-- One whole day: the S+E+R rows at day `t` move by the number of
people outside the resolved-dead class plus the counted recoveries, and
deaths match the growth of the resolved-dead count. -/
theorem dayStep_cnt (g : Nat → Nat) (σ0 : SimSt) (t : Nat) (σ' : SimSt)
    (h : dayStep g σ0 t = .ok σ')
    (hOK : ∀ p ∈ σ0.people, PInv p)
    (hts : t < σ0.r_n_susceptible.length)
    (hte : t < σ0.r_n_exposed.length)
    (htr : t < σ0.r_n_recovered.length)
    (htv : t < σ0.r_recoveries.length)
    (htd : t < σ0.r_deaths.length) :
    (σ'.people.length = σ0.people.length ∧
     σ'.r_n_susceptible.length = σ0.r_n_susceptible.length ∧
     σ'.r_n_exposed.length = σ0.r_n_exposed.length ∧
     σ'.r_n_recovered.length = σ0.r_n_recovered.length ∧
     σ'.r_recoveries.length = σ0.r_recoveries.length ∧
     σ'.r_deaths.length = σ0.r_deaths.length) ∧
    ((∀ s, s ≠ t → σ'.r_n_susceptible.getD s 0 =
        σ0.r_n_susceptible.getD s 0) ∧
     (∀ s, s ≠ t → σ'.r_n_exposed.getD s 0 = σ0.r_n_exposed.getD s 0) ∧
     (∀ s, s ≠ t → σ'.r_n_recovered.getD s 0 =
        σ0.r_n_recovered.getD s 0) ∧
     (∀ s, s ≠ t → σ'.r_recoveries.getD s 0 =
        σ0.r_recoveries.getD s 0) ∧
     (∀ s, s ≠ t → σ'.r_deaths.getD s 0 = σ0.r_deaths.getD s 0)) ∧
    (∀ j, dPersist (σ0.people.getD j default)
      (σ'.people.getD j default)) ∧
    (∀ p ∈ σ'.people, PInv p) ∧
    SER σ' t + σ0.r_recoveries.getD t 0 =
      SER σ0 t + ((σ0.people.length : ℚ) - (dcount σ0.people : ℚ)) +
        σ'.r_recoveries.getD t 0 ∧
    (dcount σ'.people : ℚ) + σ0.r_deaths.getD t 0 =
      (dcount σ0.people : ℚ) + σ'.r_deaths.getD t 0 := by
  unfold dayStep at h
  dsimp only at h
  split at h
  · cases h
  · rename_i σ1 hvl
    rw [if_neg (by simp [dailyTests])] at h
    split at h
    · cases h
    · rename_i σ2 hA
      obtain ⟨psA, rfl, _, _⟩ := ivStepA_ok _ _ _ hA
      obtain ⟨psB, rfl, _, _⟩ := ivStepB_ok _ _ _ h
      obtain ⟨⟨l0, l1, l2, l3, l4, l5⟩, ⟨o1, o2, o3, o4, o5⟩, pers, inv,
        serE, dcE⟩ := visitLoop_cnt g t _ _ _ _ hvl hOK
        (by show 0 + σ0.people.length ≤ σ0.people.length; omega)
        hts hte htr htv htd
      have serE2 : SER σ1 t + σ0.r_recoveries.getD t 0 =
          SER σ0 t + (liveN σ0.people 0 σ0.people.length : ℚ) +
            σ1.r_recoveries.getD t 0 := serE
      rw [liveN_eq_sub σ0.people] at serE2
      have dcE2 : (dcount σ1.people : ℚ) + σ0.r_deaths.getD t 0 =
          (dcount σ0.people : ℚ) + σ1.r_deaths.getD t 0 := dcE
      exact ⟨⟨l0, l1, l2, l3, l4, l5⟩, ⟨o1, o2, o3, o4, o5⟩, pers, inv,
        serE2, dcE2⟩

/-- Running days `0 .. k-1` from a fresh zero-row state: people keep
the invariant and their dates, rows at days not yet run stay zero, the
resolved-dead count equals the accumulated deaths row, and each day
`u < k` satisfies the corrected accounting identity. -/
theorem runDays_cnt (g : Nat → Nat) (N npts : Nat) :
    ∀ (k : Nat) (σ σ' : SimSt), runDays g σ k = .ok σ' →
      (∀ p ∈ σ.people, PInv p) →
      σ.people.length = N →
      σ.r_n_susceptible = List.replicate npts 0 →
      σ.r_n_exposed = List.replicate npts 0 →
      σ.r_n_recovered = List.replicate npts 0 →
      σ.r_recoveries = List.replicate npts 0 →
      σ.r_deaths = List.replicate npts 0 →
      k ≤ npts →
      (∀ p ∈ σ'.people, PInv p) ∧
      σ'.people.length = N ∧
      (∀ j, dPersist (σ.people.getD j default)
        (σ'.people.getD j default)) ∧
      σ'.r_n_susceptible.length = npts ∧
      σ'.r_n_exposed.length = npts ∧
      σ'.r_n_recovered.length = npts ∧
      σ'.r_recoveries.length = npts ∧
      σ'.r_deaths.length = npts ∧
      (∀ s, k ≤ s →
        σ'.r_n_susceptible.getD s 0 = 0 ∧ σ'.r_n_exposed.getD s 0 = 0 ∧
        σ'.r_n_recovered.getD s 0 = 0 ∧ σ'.r_recoveries.getD s 0 = 0 ∧
        σ'.r_deaths.getD s 0 = 0) ∧
      (dcount σ'.people : ℚ) =
        (dcount σ.people : ℚ) + presum σ'.r_deaths k ∧
      (∀ u, u < k →
        SER σ' u = (N : ℚ) -
          ((dcount σ.people : ℚ) + presum σ'.r_deaths u) +
          σ'.r_recoveries.getD u 0) := by
  intro k
  induction k with
  | zero =>
    intro σ σ' h hOK hN hS hE hR hV hD _
    cases h
    refine ⟨hOK, hN, fun _ => dPersist_rfl,
      by rw [hS]; simp, by rw [hE]; simp, by rw [hR]; simp,
      by rw [hV]; simp, by rw [hD]; simp,
      fun s _ => ⟨by rw [hS]; exact getD_replicate _ _,
        by rw [hE]; exact getD_replicate _ _,
        by rw [hR]; exact getD_replicate _ _,
        by rw [hV]; exact getD_replicate _ _,
        by rw [hD]; exact getD_replicate _ _⟩,
      ?_, fun u hu => absurd hu (by omega)⟩
    have hp0 : presum σ.r_deaths 0 = 0 := rfl
    rw [hp0]
    ring
  | succ k ih =>
    intro σ σ' h hOK hN hS hE hR hV hD hk1
    unfold runDays at h
    split at h
    · cases h
    · rename_i σm hrun
      obtain ⟨invM, hNm, persM, ls, le, lr, lv, ld, zM, dM, serM⟩ :=
        ih σ σm hrun hOK hN hS hE hR hV hD (by omega)
      obtain ⟨⟨p0, p1, p2, p3, p4, p5⟩, ⟨q1, q2, q3, q4, q5⟩, persD,
        invD, serD, dcD⟩ := dayStep_cnt g σm k σ' h invM
        (by rw [ls]; omega) (by rw [le]; omega) (by rw [lr]; omega)
        (by rw [lv]; omega) (by rw [ld]; omega)
      have hpc : presum σ'.r_deaths k = presum σm.r_deaths k :=
        presum_congr _ _ k (fun s hs => q5 s (by omega))
      have hNc : (σm.people.length : ℚ) = (N : ℚ) :=
        congrArg (fun n : Nat => (n : ℚ)) hNm
      refine ⟨invD, p0.trans hNm, fun j => dPersist_trans (persM j) (persD j),
        p1.trans ls, p2.trans le, p3.trans lr, p4.trans lv, p5.trans ld,
        ?_, ?_, ?_⟩
      · intro s hs
        obtain ⟨z1, z2, z3, z4, z5⟩ := zM s (by omega)
        exact ⟨(q1 s (by omega)).trans z1, (q2 s (by omega)).trans z2,
          (q3 s (by omega)).trans z3, (q4 s (by omega)).trans z4,
          (q5 s (by omega)).trans z5⟩
      · have hz := (zM k (le_refl _)).2.2.2.2
        have hps : presum σ'.r_deaths (k + 1) =
            presum σ'.r_deaths k + σ'.r_deaths.getD k 0 := rfl
        rw [hps, hpc]
        linarith
      · intro u hu
        by_cases huk : u < k
        · have hSER : SER σ' u = SER σm u := by
            unfold SER
            rw [q1 u (by omega), q2 u (by omega), q3 u (by omega)]
          have hrcv : σ'.r_recoveries.getD u 0 =
              σm.r_recoveries.getD u 0 := q4 u (by omega)
          have hpu : presum σ'.r_deaths u = presum σm.r_deaths u :=
            presum_congr _ _ u (fun s hs => q5 s (by omega))
          have hm := serM u huk
          rw [hSER, hrcv, hpu]
          linarith
        · have huu : u = k := by omega
          subst huu
          obtain ⟨z1, z2, z3, z4, z5⟩ := zM u (le_refl _)
          have hSERm : SER σm u = 0 := by
            unfold SER
            rw [z1, z2, z3]
            ring
          rw [hpc]
          linarith [serD, hSERm, hNc, dM, z4]

/-- A freshly constructed person satisfies the person invariant. -/
theorem pinv_fresh (u : Nat) (a : ℚ) (sx : Nat) :
    PInv { uid := u, age := a, sex := sx } :=
  ⟨fun _ => ⟨rfl, rfl, rfl, rfl, rfl, rfl, rfl⟩,
   fun hx => Bool.noConfusion hx, fun hx => Bool.noConfusion hx,
   Or.inl rfl,
   fun e i' he _ => Option.noConfusion he,
   fun r hr => Option.noConfusion hr,
   fun d hd => Option.noConfusion hd⟩

theorem getD_sus (ps : List Person)
    (h : ∀ p ∈ ps, p.susceptible = true) :
    ∀ j, (ps.getD j default).susceptible = true := by
  intro j
  by_cases hj : j < ps.length
  · exact h _ (getD_mem _ _ _ hj)
  · rw [getD_oob _ _ _ (Nat.le_of_not_lt hj)]
    rfl

/-- The person-creation loop yields an all-fresh population and touches
no counting row. -/
theorem mkPeople_inv (g : Nat → Nat) :
    ∀ (n idx : Nat) (σ σ' : SimSt), mkPeople g n idx σ = .ok σ' →
      (∀ p ∈ σ.people, (PInv p ∧ classD p = false) ∧
        p.susceptible = true) →
      (∀ p ∈ σ'.people, (PInv p ∧ classD p = false) ∧
        p.susceptible = true) ∧
      σ'.r_n_susceptible = σ.r_n_susceptible ∧
      σ'.r_n_exposed = σ.r_n_exposed ∧
      σ'.r_n_recovered = σ.r_n_recovered ∧
      σ'.r_recoveries = σ.r_recoveries ∧
      σ'.r_deaths = σ.r_deaths ∧
      σ'.pars = σ.pars := by
  intro n
  induction n with
  | zero =>
    intro idx σ σ' h hA
    cases h
    exact ⟨hA, rfl, rfl, rfl, rfl, rfl, rfl⟩
  | succ k ih =>
    intro idx σ σ' h hA
    unfold mkPeople at h
    split at h
    · cases h
    · simp only [ageSexDraw, drawNat] at h
      obtain ⟨A, b1, b2, b3, b4, b5, bp⟩ := ih (idx + 1) _ σ' h
        (by
          intro p hp
          rcases List.mem_append.mp hp with h1 | h2
          · exact hA p h1
          · rw [List.mem_singleton] at h2
            subst h2
            exact ⟨⟨pinv_fresh _ _ _, rfl⟩, rfl⟩)
      exact ⟨A, b1, b2, b3, b4, b5, bp⟩

/-- The seed loop marks fresh people exposed and infectious with day
stamps 0 and no terminal dates, keeping the invariant, the class count
and every counting row. -/
theorem seedLoop_inv :
    ∀ (n i : Nat) (σ σ' : SimSt), seedLoop n i σ = .ok σ' →
      (∀ p ∈ σ.people, PInv p ∧ classD p = false) →
      (∀ j, i ≤ j → (σ.people.getD j default).susceptible = true) →
      (∀ p ∈ σ'.people, PInv p ∧ classD p = false) ∧
      σ'.r_n_susceptible = σ.r_n_susceptible ∧
      σ'.r_n_exposed = σ.r_n_exposed ∧
      σ'.r_n_recovered = σ.r_n_recovered ∧
      σ'.r_recoveries = σ.r_recoveries ∧
      σ'.r_deaths = σ.r_deaths ∧
      σ'.pars = σ.pars ∧
      σ'.people.length = σ.people.length := by
  intro n
  induction n with
  | zero =>
    intro i σ σ' h hA _
    cases h
    exact ⟨hA, rfl, rfl, rfl, rfl, rfl, rfl, rfl⟩
  | succ k ih =>
    intro i σ σ' h hA hS
    unfold seedLoop at h
    dsimp only at h
    split at h
    · rename_i hlt
      have hp := hA _ (getD_mem σ.people i default (by simpa using hlt))
      have hsus0 := hS i (le_refl i)
      obtain ⟨hpi, hcl⟩ := hp
      obtain ⟨hexp0, hrec0, hinf0, hde, hdi, hdr, hdd⟩ := hpi.1 hsus0
      have hpi' : PInv { σ.people.getD i default with susceptible := false, exposed := true, infectious := true, date_exposed := some 0, date_infectious := some 0 } :=
        ⟨fun hx => Bool.noConfusion hx, fun _ => hrec0, fun _ => rfl,
         Or.inl hdd,
         fun e i' he hi => by
           injection he with he
           injection hi with hi
           omega,
         fun r hr => Option.noConfusion (hdr.symm.trans hr),
         fun d hd => Option.noConfusion (hdd.symm.trans hd)⟩
      obtain ⟨A, b1, b2, b3, b4, b5, bp, bl⟩ := ih (i + 1) _ σ' h
        (by
          intro p hp2
          rcases List.mem_or_eq_of_mem_set hp2 with hmem | heq
          · exact hA p hmem
          · subst heq
            exact ⟨hpi', rfl⟩)
        (by
          intro j hj
          show ((σ.people.set i _).getD j default).susceptible = true
          rw [getD_set_ne _ _ _ _ _ (by omega)]
          exact hS j (by omega))
      exact ⟨A, b1, b2, b3, b4, b5, bp, bl.trans (by simp)⟩
    · cases h

/-- init_people yields a population satisfying the person invariant with
nobody in the resolved-dead class, and touches no counting row and no
parameter. -/
theorem initPeople_inv (g : Nat → Nat) (σ σ' : SimSt)
    (h : initPeople g σ = .ok σ') :
    (∀ p ∈ σ'.people, PInv p ∧ classD p = false) ∧
    σ'.r_n_susceptible = σ.r_n_susceptible ∧
    σ'.r_n_exposed = σ.r_n_exposed ∧
    σ'.r_n_recovered = σ.r_n_recovered ∧
    σ'.r_recoveries = σ.r_recoveries ∧
    σ'.r_deaths = σ.r_deaths ∧
    σ'.pars = σ.pars := by
  unfold initPeople at h
  split at h
  · cases h
  · split at h
    · cases h
    · split at h
      · cases h
      · rename_i σ1 hmk
        split at h
        · cases h
        · obtain ⟨A1, m1, m2, m3, m4, m5, mp⟩ :=
            mkPeople_inv g _ _ _ _ hmk
              (fun p hp => absurd hp (List.not_mem_nil p))
          obtain ⟨A2, s1, s2, s3, s4, s5, sp, _⟩ :=
            seedLoop_inv _ _ _ _ h (fun p hp => (A1 p hp).1)
              (fun j _ => getD_sus σ1.people
                (fun p hp => (A1 p hp).2) j)
          exact ⟨A2, s1.trans m1, s2.trans m2, s3.trans m3, s4.trans m4,
            s5.trans m5, sp.trans mp⟩

/-- initResults zeroes every counting row at length n_days + 1. -/
theorem initResults_rows (σ σ1 : SimSt) (nd : ℚ)
    (hnd : lookupPar σ.pars "n_days" = .ok nd)
    (h : initResults σ = .ok σ1) :
    σ1.r_n_susceptible = List.replicate (qToNat nd + 1) 0 ∧
    σ1.r_n_exposed = List.replicate (qToNat nd + 1) 0 ∧
    σ1.r_n_recovered = List.replicate (qToNat nd + 1) 0 ∧
    σ1.r_recoveries = List.replicate (qToNat nd + 1) 0 ∧
    σ1.r_deaths = List.replicate (qToNat nd + 1) 0 ∧
    σ1.pars = σ.pars ∧ σ1.people = σ.people := by
  unfold initResults at h
  rw [hnd] at h
  cases h
  exact ⟨rfl, rfl, rfl, rfl, rfl, rfl, rfl⟩

/-- Across one day, keys other than contacts keep their values, and
contacts is transformed exactly by the intervene and unintervene steps in
source order. -/
theorem dayStep_pars (g : Nat → Nat) (σ0 : SimSt) (t : Nat) (σ' : SimSt)
    (h : dayStep g σ0 t = .ok σ') :
    (∀ k', k' ≠ "contacts" → lookupPar σ'.pars k' = lookupPar σ0.pars k') ∧
    (∀ iv uv eff co,
      lookupPar σ0.pars "intervene" = .ok iv →
      lookupPar σ0.pars "unintervene" = .ok uv →
      lookupPar σ0.pars "intervention_eff" = .ok eff →
      lookupPar σ0.pars "contacts" = .ok co →
      lookupPar σ'.pars "contacts" =
        .ok (if (t : ℚ) = uv then
               qdiv (if (t : ℚ) = iv then qmul co (qsub 1 eff) else co)
                 (qsub 1 eff)
             else (if (t : ℚ) = iv then qmul co (qsub 1 eff) else co))) := by
  unfold dayStep at h
  dsimp only at h
  split at h
  · cases h
  · rename_i σ1 hvl
    have hp1 : σ1.pars = σ0.pars :=
      (visitLoop_keep g t _ _ _ σ1 hvl).pars
    rw [if_neg (by simp [dailyTests])] at h
    split at h
    · cases h
    · rename_i σ2 hA
      obtain ⟨psA, hsA, hAne, hAco⟩ := ivStepA_ok σ1 t σ2 hA
      obtain ⟨psB, hsB, hBne, hBco⟩ := ivStepB_ok σ2 t σ' h
      subst hsA
      subst hsB
      constructor
      · intro k' hk'
        rw [hBne k' hk', hAne k' hk', hp1]
      · intro iv uv eff co hiv huv heff hco
        have hAco' := hAco iv eff co (by rw [hp1]; exact hiv)
          (by rw [hp1]; exact heff) (by rw [hp1]; exact hco)
        have hBco' := hBco uv eff
          (if (t : ℚ) = iv then qmul co (qsub 1 eff) else co)
          (by show lookupPar psA "unintervene" = .ok uv
              rw [hAne _ (by decide), hp1]
              exact huv)
          (by show lookupPar psA "intervention_eff" = .ok eff
              rw [hAne _ (by decide), hp1]
              exact heff)
          hAco'
        exact hBco'

/-! ## Behaviour of a run over the default parameter store -/


/-- Across a whole run of days, keys other than contacts keep their
values. -/
theorem runDays_pars (g : Nat → Nat) :
    ∀ (k : Nat) (σ σ' : SimSt), runDays g σ k = .ok σ' →
      ∀ key, key ≠ "contacts" →
        lookupPar σ'.pars key = lookupPar σ.pars key := by
  intro k
  induction k with
  | zero =>
    intro σ σ' h key _
    cases h
    rfl
  | succ n ih =>
    intro σ σ' h key hk
    unfold runDays at h
    split at h
    · cases h
    · rename_i σm hrun
      rw [(dayStep_pars g σm n σ' h).1 key hk, ih σ σm hrun key hk]

theorem tpStep_pars_people (σ : SimSt) (p : Person) (σa : SimSt)
    (h : tpStep σ p = .ok σa) : σa.pars = σ.pars ∧ σa.people = σ.people := by
  unfold tpStep at h
  repeat' split at h
  all_goals cases h
  all_goals exact ⟨rfl, rfl⟩

theorem expoStep_pars_eq (t i : Nat) (σ : SimSt) (p : Person) :
    (expoStep t i σ p).2.pars = σ.pars := by
  unfold expoStep
  repeat' split
  all_goals rfl

theorem deathStep_pars_eq (t i : Nat) (σ : SimSt) (p : Person) :
    (deathStep t i σ p).2.pars = σ.pars := by
  unfold deathStep
  repeat' split
  all_goals rfl

theorem contactLoop_mp (g : Nat → Nat) (t u : Nat) (inds : List Nat)
    (σ : SimSt) (hpars : σ.pars = make_pars) :
    contactLoop g t u inds σ = .ok σ ∨
    contactLoop g t u inds σ = .error (.keyNotFound "r0") := by
  cases inds with
  | nil => exact Or.inl rfl
  | cons ind rest =>
    right
    unfold contactLoop
    rw [show lookupPar σ.pars "r0" = .error (.keyNotFound "r0") from by
      rw [hpars]; decide]

theorem recovOrContacts_mp (g : Nat → Nat) (t i : Nat) (σ : SimSt)
    (p : Person) (hpars : σ.pars = make_pars) :
    (∃ p' σ', recovOrContacts g t i σ p = .ok (p', σ') ∧
      σ'.pars = make_pars) ∨
    recovOrContacts g t i σ p = .error (.keyNotFound "r0") := by
  unfold recovOrContacts
  split
  · exact Or.inl ⟨_, _, rfl, hpars⟩
  · dsimp only
    rw [show lookupPar σ.pars "contacts" = .ok 20 from by rw [hpars]; decide]
    dsimp only [ptDraw, drawNat]
    have hch := chooseDraws_state g
      ({ σ with r_n_infectious := bump σ.r_n_infectious t 1,
                rix := σ.rix + 1 } : SimSt).people.length
      (g σ.rix)
      { σ with r_n_infectious := bump σ.r_n_infectious t 1,
               rix := σ.rix + 1 }
    rcases contactLoop_mp g t p.uid
        (chooseDraws g
          ({ σ with r_n_infectious := bump σ.r_n_infectious t 1,
                    rix := σ.rix + 1 } : SimSt).people.length
          (g σ.rix)
          { σ with r_n_infectious := bump σ.r_n_infectious t 1,
                   rix := σ.rix + 1 }).1
        (chooseDraws g
          ({ σ with r_n_infectious := bump σ.r_n_infectious t 1,
                    rix := σ.rix + 1 } : SimSt).people.length
          (g σ.rix)
          { σ with r_n_infectious := bump σ.r_n_infectious t 1,
                   rix := σ.rix + 1 }).2
        (by rw [hch]; exact hpars) with hcl | hcl
    · rw [hcl]
      exact Or.inl ⟨_, _, rfl, by rw [hch]; exact hpars⟩
    · rw [hcl]
      exact Or.inr rfl

theorem visitOne_mp (g : Nat → Nat) (t i : Nat) (σ : SimSt)
    (hpars : σ.pars = make_pars) :
    (∃ σ', visitOne g t i σ = .ok σ' ∧ σ'.pars = make_pars) ∨
    visitOne g t i σ = .error (.keyNotFound "r0") := by
  unfold visitOne
  dsimp only
  split
  · exact Or.inl ⟨_, rfl, hpars⟩
  · have htp : ∃ σa, tpStep σ (σ.people.getD i default) = .ok σa ∧
        σa.pars = make_pars := by
      unfold tpStep
      split
      · rw [show lookupPar σ.pars "symptomatic" = .ok 5 from by
          rw [hpars]; decide]
        exact ⟨_, rfl, hpars⟩
      · exact ⟨_, rfl, hpars⟩
    obtain ⟨σa, htp1, htp2⟩ := htp
    rw [htp1]
    dsimp only
    have hexp : (expoStep t i σa (σ.people.getD i default)).2.pars =
        make_pars := by
      rw [expoStep_pars_eq]
      exact htp2
    by_cases hinf :
        (expoStep t i σa (σ.people.getD i default)).1.infectious = true
    · rw [if_pos hinf]
      have hdth : (deathStep t i (expoStep t i σa (σ.people.getD i default)).2
          (expoStep t i σa (σ.people.getD i default)).1).2.pars =
          make_pars := by
        rw [deathStep_pars_eq]
        exact hexp
      rcases recovOrContacts_mp g t i _
          (deathStep t i (expoStep t i σa (σ.people.getD i default)).2
            (expoStep t i σa (σ.people.getD i default)).1).1 hdth with
        ⟨p', σ', hro, hp'⟩ | hro
      · rw [hro]
        dsimp only
        split
        · exact Or.inl ⟨_, rfl, hp'⟩
        · exact Or.inl ⟨_, rfl, hp'⟩
      · rw [hro]
        exact Or.inr rfl
    · rw [if_neg hinf]
      dsimp only
      split
      · exact Or.inl ⟨_, rfl, hexp⟩
      · exact Or.inl ⟨_, rfl, hexp⟩

theorem visitLoop_mp (g : Nat → Nat) (t : Nat) :
    ∀ (fuel i : Nat) (σ : SimSt), σ.pars = make_pars →
      (∃ σ', visitLoop g t i fuel σ = .ok σ' ∧ σ'.pars = make_pars) ∨
      (∃ i', visitLoop g t i fuel σ = .error (.keyNotFound "r0") ∧ i' = i) := by
  intro fuel
  induction fuel with
  | zero =>
    intro i σ hpars
    exact Or.inl ⟨σ, rfl, hpars⟩
  | succ k ih =>
    intro i σ hpars
    unfold visitLoop
    rcases visitOne_mp g t i σ hpars with ⟨σ1, hv, hp1⟩ | hv
    · rw [hv]
      rcases ih (i + 1) σ1 hp1 with ⟨σ', hl, hp'⟩ | ⟨i', hl, _⟩
      · exact Or.inl ⟨σ', hl, hp'⟩
      · exact Or.inr ⟨i, hl, rfl⟩
    · rw [hv]
      exact Or.inr ⟨i, rfl, rfl⟩

theorem dayStep_mp (g : Nat → Nat) (σ : SimSt) (t : Nat)
    (hpars : σ.pars = make_pars) :
    dayStep g σ t = .error (.keyNotFound "r0") ∨
    dayStep g σ t = .error (.keyNotFound "intervene") := by
  unfold dayStep
  dsimp only
  rcases visitLoop_mp g t
      ({ σ with testProbs := [] } : SimSt).people.length 0
      { σ with testProbs := [] } hpars with ⟨σ1, hvl, hp1⟩ | ⟨_, hvl, _⟩
  · rw [hvl]
    dsimp only
    rw [if_neg (by simp [dailyTests])]
    right
    unfold ivStepA
    rw [show lookupPar σ1.pars "intervene" =
        .error (.keyNotFound "intervene") from by rw [hp1]; decide]
  · rw [hvl]
    exact Or.inl rfl

theorem runDays_mp (g : Nat → Nat) :
    ∀ (k : Nat) (σ : SimSt), σ.pars = make_pars →
      runDays g σ (k + 1) = .error (.keyNotFound "r0") ∨
      runDays g σ (k + 1) = .error (.keyNotFound "intervene") := by
  intro k
  induction k with
  | zero =>
    intro σ hpars
    unfold runDays
    unfold runDays
    exact dayStep_mp g σ 0 hpars
  | succ n ih =>
    intro σ hpars
    unfold runDays
    rcases ih σ hpars with hr | hr
    · rw [hr]
      exact Or.inl rfl
    · rw [hr]
      exact Or.inr rfl

theorem initResults_ok (σ : SimSt) (nd : ℚ)
    (h : lookupPar σ.pars "n_days" = .ok nd) :
    ∃ σ1, initResults σ = .ok σ1 ∧ σ1.pars = σ.pars ∧
      σ1.people = σ.people := by
  unfold initResults
  rw [h]
  exact ⟨_, rfl, rfl, rfl⟩

theorem mkPeople_mp (g : Nat → Nat) :
    ∀ (n idx : Nat) (σ : SimSt), σ.pars = make_pars →
      ∃ σ', mkPeople g n idx σ = .ok σ' ∧ σ'.pars = make_pars ∧
        σ'.people.length = σ.people.length + n := by
  intro n
  induction n with
  | zero =>
    intro idx σ hpars
    exact ⟨σ, rfl, hpars, rfl⟩
  | succ k ih =>
    intro idx σ hpars
    unfold mkPeople
    rw [show lookupPar σ.pars "usepopdata" = .ok 0 from by rw [hpars]; decide]
    dsimp only [ageSexDraw, drawNat]
    obtain ⟨σ', hmk, hp', hlen⟩ := ih (idx + 1)
      { σ with rix := σ.rix + 1 + 1,
               people := σ.people ++
                 [{ uid := idx, age := (min (g (σ.rix + 1)) 99 : Nat),
                    sex := g σ.rix % 2 }] } hpars
    refine ⟨σ', hmk, hp', ?_⟩
    rw [hlen]
    simp
    omega

theorem seedLoop_mp :
    ∀ (n i : Nat) (σ : SimSt), σ.pars = make_pars →
      i + n ≤ σ.people.length →
      ∃ σ', seedLoop n i σ = .ok σ' ∧ σ'.pars = make_pars := by
  intro n
  induction n with
  | zero =>
    intro i σ hpars _
    exact ⟨σ, rfl, hpars⟩
  | succ k ih =>
    intro i σ hpars hle
    unfold seedLoop
    rw [if_pos (by change i < σ.people.length; omega)]
    apply ih (i + 1)
    · exact hpars
    · simp only [List.length_set]
      change i + 1 + k ≤ σ.people.length
      omega

theorem initPeople_mp (g : Nat → Nat) (σ : SimSt)
    (hpars : σ.pars = make_pars) :
    ∃ σ', initPeople g σ = .ok σ' ∧ σ'.pars = make_pars := by
  unfold initPeople
  rw [show lookupPar σ.pars "verbose" = .ok 1 from by rw [hpars]; decide]
  rw [show lookupPar σ.pars "n" = .ok 10000 from by rw [hpars]; decide]
  dsimp only
  obtain ⟨σ1, hmk, hp1, hlen⟩ := mkPeople_mp g (qToNat 10000) 0
    { σ with people := [] } hpars
  rw [hmk]
  dsimp only
  rw [show lookupPar σ1.pars "n_infected" = .ok 1 from by rw [hp1]; decide]
  dsimp only
  apply seedLoop_mp
  · exact hp1
  · rw [hlen]
    change 0 + qToNat 1 ≤ 0 + qToNat 10000
    decide

/-- Claim C10: for the default parameter set produced by make_pars,
every call to Sim.run fails with a key-not-found error before completing
the day loop, because the loop reads the keys r0 and intervene (and would
read unintervene), none of which make_pars defines — it defines
r_contact, quarantine, unquarantine and quarantine_eff instead. -/
theorem C10_defaultPars (g : Nat → Nat) (σ : SimSt)
    (hpars : σ.pars = make_pars) :
    (∃ key, run g σ = .error (.keyNotFound key) ∧
      (key = "r0" ∨ key = "intervene")) ∧
    hasKey make_pars "r0" = false ∧
    hasKey make_pars "intervene" = false ∧
    hasKey make_pars "unintervene" = false ∧
    hasKey make_pars "intervention_eff" = false ∧
    hasKey make_pars "r_contact" = true ∧
    hasKey make_pars "quarantine" = true ∧
    hasKey make_pars "unquarantine" = true ∧
    hasKey make_pars "quarantine_eff" = true := by
  refine ⟨?_, by decide, by decide, by decide, by decide, by decide,
    by decide, by decide, by decide⟩
  unfold run
  rw [show lookupPar σ.pars "verbose" = .ok 1 from by rw [hpars]; decide]
  dsimp only
  obtain ⟨σ1, hir, hp1, _⟩ := initResults_ok σ 54
    (by rw [hpars]; decide)
  rw [hir]
  dsimp only
  obtain ⟨σ2, hip, hp2⟩ := initPeople_mp g σ1 (by rw [hp1]; exact hpars)
  rw [hip]
  dsimp only
  rw [show lookupPar σ2.pars "n_days" = .ok 54 from by rw [hp2]; decide]
  dsimp only
  rcases runDays_mp g (qToNat 54) σ2 hp2 with hr | hr
  · rw [hr]
    exact ⟨"r0", rfl, Or.inl rfl⟩
  · rw [hr]
    exact ⟨"intervene", rfl, Or.inr rfl⟩

/-- Claim C10 witness: the default store concretely. -/
theorem C10_witness :
    (∃ key, run gZero (mkSt make_pars) = .error (.keyNotFound key) ∧
      (key = "r0" ∨ key = "intervene")) ∧
    hasKey make_pars "r0" = false ∧
    hasKey make_pars "intervene" = false ∧
    hasKey make_pars "unintervene" = false ∧
    hasKey make_pars "intervention_eff" = false ∧
    hasKey make_pars "r_contact" = true ∧
    hasKey make_pars "quarantine" = true ∧
    hasKey make_pars "unquarantine" = true ∧
    hasKey make_pars "quarantine_eff" = true :=
  C10_defaultPars gZero (mkSt make_pars) rfl

/-! ## The testing path is dead code: no tests, no diagnoses -/

/-- Shape of a successful run: the intermediate states it goes through. -/
theorem run_shape (g : Nat → Nat) (σ : SimSt) (out : RunOut)
    (h : run g σ = .ok out) :
    ∃ σ1 σ2 σ3 nd sc,
      initResults σ = .ok σ1 ∧ initPeople g σ1 = .ok σ2 ∧
      lookupPar σ2.pars "n_days" = .ok nd ∧
      runDays g σ2 (qToNat nd + 1) = .ok σ3 ∧
      lookupPar σ3.pars "scale" = .ok sc ∧ out = mkOut σ3 sc := by
  unfold run at h
  split at h
  · cases h
  · split at h
    · cases h
    · split at h
      · cases h
      · split at h
        · cases h
        · split at h
          · cases h
          · split at h
            · cases h
            · cases h
              exact ⟨_, _, _, _, _, by assumption, by assumption,
                by assumption, by assumption, by assumption, rfl⟩

/-- initResults zeroes every result row, in particular tests and
diagnoses, and leaves pars and people alone. -/
theorem initResults_shape (σ σ1 : SimSt) (h : initResults σ = .ok σ1) :
    ∃ npts, σ1.r_tests = List.replicate npts 0 ∧
      σ1.r_diagnoses = List.replicate npts 0 ∧
      σ1.pars = σ.pars ∧ σ1.people = σ.people := by
  unfold initResults at h
  split at h
  · cases h
  · cases h
    exact ⟨_, rfl, rfl, rfl, rfl⟩

theorem mkPeople_diag (g : Nat → Nat) :
    ∀ (n idx : Nat) (σ σ' : SimSt) (T D : List ℚ),
      mkPeople g n idx σ = .ok σ' →
      σ.r_tests = T → σ.r_diagnoses = D →
      (∀ p ∈ σ.people, p.diagnosed = false) →
      σ'.r_tests = T ∧ σ'.r_diagnoses = D ∧
        ∀ p ∈ σ'.people, p.diagnosed = false := by
  intro n
  induction n with
  | zero =>
    intro idx σ σ' T D h hT hD hd
    cases h
    exact ⟨hT, hD, hd⟩
  | succ k ih =>
    intro idx σ σ' T D h hT hD hd
    unfold mkPeople at h
    split at h
    · cases h
    · dsimp only [ageSexDraw, drawNat] at h
      exact ih (idx + 1) _ σ' T D h (by exact hT) (by exact hD)
        (by intro p hp
            rcases List.mem_append.mp hp with hp | hp
            · exact hd p hp
            · rcases List.mem_singleton.mp hp with rfl
              rfl)

theorem seedLoop_diag :
    ∀ (n i : Nat) (σ σ' : SimSt) (T D : List ℚ),
      seedLoop n i σ = .ok σ' →
      σ.r_tests = T → σ.r_diagnoses = D →
      (∀ p ∈ σ.people, p.diagnosed = false) →
      σ'.r_tests = T ∧ σ'.r_diagnoses = D ∧
        ∀ p ∈ σ'.people, p.diagnosed = false := by
  intro n
  induction n with
  | zero =>
    intro i σ σ' T D h hT hD hd
    cases h
    exact ⟨hT, hD, hd⟩
  | succ k ih =>
    intro i σ σ' T D h hT hD hd
    unfold seedLoop at h
    dsimp only at h
    split at h
    · rename_i hb
      exact ih (i + 1) _ σ' T D h (by exact hT) (by exact hD)
        (by intro p hp
            rcases List.mem_or_eq_of_mem_set hp with hp | hp
            · exact hd p hp
            · subst hp
              show (σ.people.getD i default).diagnosed = false
              exact hd _ (getD_mem _ _ _ (by simpa using hb)))
    · cases h

theorem initPeople_diag (g : Nat → Nat) (σ σ' : SimSt)
    (h : initPeople g σ = .ok σ') :
    σ'.r_tests = σ.r_tests ∧ σ'.r_diagnoses = σ.r_diagnoses ∧
      ∀ p ∈ σ'.people, p.diagnosed = false := by
  unfold initPeople at h
  split at h
  · cases h
  · split at h
    · cases h
    · split at h
      · cases h
      · rename_i σ1 hmk
        split at h
        · cases h
        · have h1 := mkPeople_diag g _ _ _ σ1 σ.r_tests σ.r_diagnoses hmk
            (by rfl) (by rfl) (by simp)
          exact seedLoop_diag _ _ σ1 σ' σ.r_tests σ.r_diagnoses h h1.1
            h1.2.1 h1.2.2

/-- One day preserves the tests and diagnoses rows and every diagnosed
flag (the testing block is never entered on the empty feed, and the
intervention steps only rewrite pars). -/
theorem dayStep_keepD (g : Nat → Nat) (σ : SimSt) (t : Nat) (σ' : SimSt)
    (h : dayStep g σ t = .ok σ') :
    σ'.r_tests = σ.r_tests ∧ σ'.r_diagnoses = σ.r_diagnoses ∧
      (∀ j, (σ'.people.getD j default).diagnosed =
        (σ.people.getD j default).diagnosed) ∧
      σ'.people.length = σ.people.length := by
  unfold dayStep at h
  dsimp only at h
  split at h
  · cases h
  · rename_i σ1 hvl
    have k1 := visitLoop_keep g t _ _ _ σ1 hvl
    rw [if_neg (by simp [dailyTests])] at h
    split at h
    · cases h
    · rename_i σ2 hA
      obtain ⟨psA, hsA, _, _⟩ := ivStepA_ok σ1 t σ2 hA
      obtain ⟨psB, hsB, _, _⟩ := ivStepB_ok σ2 t σ' h
      subst hsA
      subst hsB
      exact ⟨k1.tests, k1.diags, k1.diagFlags, k1.len⟩

theorem runDays_keepD (g : Nat → Nat) :
    ∀ (k : Nat) (σ σ' : SimSt), runDays g σ k = .ok σ' →
      σ'.r_tests = σ.r_tests ∧ σ'.r_diagnoses = σ.r_diagnoses ∧
        (∀ j, (σ'.people.getD j default).diagnosed =
          (σ.people.getD j default).diagnosed) ∧
        σ'.people.length = σ.people.length := by
  intro k
  induction k with
  | zero =>
    intro σ σ' h
    cases h
    exact ⟨rfl, rfl, fun _ => rfl, rfl⟩
  | succ n ih =>
    intro σ σ' h
    unfold runDays at h
    split at h
    · cases h
    · rename_i σmid hmid
      obtain ⟨a1, a2, a3, a4⟩ := ih σ σmid hmid
      obtain ⟨b1, b2, b3, b4⟩ := dayStep_keepD g σmid n σ' h
      exact ⟨b1.trans a1, b2.trans a2, fun j => (b3 j).trans (a3 j),
        b4.trans a4⟩

theorem cumsum_replicate_zero :
    ∀ (n : Nat) (acc : ℚ), cumsumFrom acc (List.replicate n 0) =
      List.replicate n acc := by
  intro n
  induction n with
  | zero => intro acc; rfl
  | succ k ih =>
    intro acc
    show qadd acc 0 :: cumsumFrom (qadd acc 0) (List.replicate k 0) = _
    have hz : qadd acc 0 = acc := by
      rw [qadd_eq, add_zero]
    rw [hz, ih]
    rfl

/-- Claim C9: in every successful run, regardless of parameters, the
daily test feed is the hard-coded empty list, so the testing block never
executes: the tests and diagnoses rows (and their cumulative variants)
are identically zero and no individual is ever marked diagnosed. -/
theorem C9_noTesting (g : Nat → Nat) (σ : SimSt) (out : RunOut)
    (h : run g σ = .ok out) :
    dailyTests = [] ∧
    (∀ x ∈ out.tests, x = 0) ∧ (∀ x ∈ out.diagnoses, x = 0) ∧
    (∀ x ∈ out.cum_tested, x = 0) ∧ (∀ x ∈ out.cum_diagnosed, x = 0) ∧
    (∀ p ∈ out.people, p.diagnosed = false) := by
  obtain ⟨σ1, σ2, σ3, nd, sc, hir, hip, hnd, hrd, hsc, hout⟩ :=
    run_shape g σ out h
  obtain ⟨npts, ht1, hdg1, _, _⟩ := initResults_shape σ σ1 hir
  obtain ⟨ht2, hdg2, hdiag2⟩ := initPeople_diag g σ1 σ2 hip
  obtain ⟨ht3, hdg3, hdiag3, hlen3⟩ := runDays_keepD g _ σ2 σ3 hrd
  have htests : σ3.r_tests = List.replicate npts 0 := by
    rw [ht3, ht2, ht1]
  have hdiags : σ3.r_diagnoses = List.replicate npts 0 := by
    rw [hdg3, hdg2, hdg1]
  have hzmul : ∀ x ∈ List.replicate npts (0 : ℚ), qmul x sc = 0 := by
    intro x hx
    rw [List.eq_of_mem_replicate hx, qmul_eq, zero_mul]
  refine ⟨rfl, ?_, ?_, ?_, ?_, ?_⟩
  · intro x hx
    rw [hout] at hx
    unfold mkOut at hx
    dsimp only at hx
    rw [htests] at hx
    obtain ⟨y, hy, hyx⟩ := List.mem_map.mp hx
    rw [← hyx]
    exact hzmul y hy
  · intro x hx
    rw [hout] at hx
    unfold mkOut at hx
    dsimp only at hx
    rw [hdiags] at hx
    obtain ⟨y, hy, hyx⟩ := List.mem_map.mp hx
    rw [← hyx]
    exact hzmul y hy
  · intro x hx
    rw [hout] at hx
    unfold mkOut at hx
    dsimp only at hx
    rw [htests] at hx
    unfold cumsum at hx
    rw [cumsum_replicate_zero] at hx
    obtain ⟨y, hy, hyx⟩ := List.mem_map.mp hx
    rw [← hyx]
    exact hzmul y hy
  · intro x hx
    rw [hout] at hx
    unfold mkOut at hx
    dsimp only at hx
    rw [hdiags] at hx
    unfold cumsum at hx
    rw [cumsum_replicate_zero] at hx
    obtain ⟨y, hy, hyx⟩ := List.mem_map.mp hx
    rw [← hyx]
    exact hzmul y hy
  · intro p hp
    rw [hout] at hp
    unfold mkOut at hp
    dsimp only at hp
    obtain ⟨⟨j, hj⟩, hg⟩ := List.mem_iff_get.mp hp
    have hgd : σ3.people.getD j default = p := by
      rw [List.getD_eq_get?]
      rw [List.get?_eq_get hj]
      rw [hg]
      rfl
    rw [← hgd]
    rw [hdiag3 j]
    by_cases hjl : j < σ2.people.length
    · exact hdiag2 _ (getD_mem _ _ _ hjl)
    · rw [getD_oob _ _ _ (Nat.le_of_not_lt hjl)]
      rfl

/-- The result of the one-person, no-seed demo run. -/
def seedlessOut : RunOut :=
  match run gZero (mkSt demoPars) with
  | .ok o => o
  | .error _ => default

/-- Claim C9 witness: a concrete successful run. -/
theorem C9_witness :
    run gZero (mkSt demoPars) = .ok seedlessOut ∧
    (dailyTests = [] ∧
      (∀ x ∈ seedlessOut.tests, x = 0) ∧
      (∀ x ∈ seedlessOut.diagnoses, x = 0) ∧
      (∀ x ∈ seedlessOut.cum_tested, x = 0) ∧
      (∀ x ∈ seedlessOut.cum_diagnosed, x = 0) ∧
      (∀ p ∈ seedlessOut.people, p.diagnosed = false)) :=
  ⟨rfl, C9_noTesting gZero (mkSt demoPars) seedlessOut rfl⟩

/-! ## Concrete run outputs for counterexamples -/

/-- The result of the one-seeded-person, one-day run. -/
def seedOut : RunOut :=
  match run gZero (mkSt seedPars) with
  | .ok o => o
  | .error _ => default

/-- The result of the two-person run in which the seed infects person 1
on day 0 and person 1 dies on day 1. -/
def c1out : RunOut :=
  match run c1g (mkSt c1pars) with
  | .ok o => o
  | .error _ => default

/-- Claim C1, counterexample: in the two-person run, person 1 dies on
day 1 (deaths[1] = 1, the person is marked died with death day 1 and no
recovery day), yet n_infectious[1] = 2 — with only two people in the
population, the individual resolved by death on day 1 was still counted
as infectious on day 1, because the death branch does not skip the
recovery-else branch that counts infectious people and draws their
contacts.  This refutes the claim that an individual resolved on day t is
removed from contact consideration for day t. -/
theorem C1_counterexample :
    run c1g (mkSt c1pars) = .ok c1out ∧
    c1out.people.length = 2 ∧
    c1out.deaths.getD 1 0 = 1 ∧
    (c1out.people.getD 1 default).died = true ∧
    (c1out.people.getD 1 default).date_died = some 1 ∧
    (c1out.people.getD 1 default).date_recovered = none ∧
    c1out.n_infectious.getD 1 0 = 2 := by
  refine ⟨rfl, ?_, ?_, ?_, ?_, ?_, ?_⟩ <;> decide

/-- Claim C2, counterexample: a seed individual created at
initialization is exposed (date_exposed = 0) but has neither a recovery
day nor a death day, refuting the claim that exactly one terminal day is
set at exposure for every exposed individual including the seeds. -/
theorem C2_counterexample :
    run gZero (mkSt seedPars) = .ok seedOut ∧
    (seedOut.people.getD 0 default).exposed = true ∧
    (seedOut.people.getD 0 default).date_exposed = some 0 ∧
    (seedOut.people.getD 0 default).date_recovered = none ∧
    (seedOut.people.getD 0 default).date_died = none := by
  refine ⟨rfl, ?_, ?_, ?_, ?_⟩ <;> decide

/-- Claim C3, counterexample: with a population of one seed individual,
day 0 counts the individual both in n_exposed and in n_infectious, so the
five-way sum is 2 while the population size is 1. -/
theorem C3_counterexample :
    run gZero (mkSt seedPars) = .ok seedOut ∧
    seedOut.people.length = 1 ∧
    seedOut.n_susceptible.getD 0 0 = 0 ∧
    seedOut.n_exposed.getD 0 0 = 1 ∧
    seedOut.n_infectious.getD 0 0 = 1 ∧
    seedOut.n_recovered.getD 0 0 = 0 ∧
    seedOut.cum_deaths.getD 0 0 = 0 ∧
    seedOut.n_susceptible.getD 0 0 + seedOut.n_exposed.getD 0 0 +
        seedOut.n_infectious.getD 0 0 + seedOut.n_recovered.getD 0 0 +
        seedOut.cum_deaths.getD 0 0 ≠ (seedOut.people.length : ℚ) := by
  have h1 : seedOut.n_susceptible.getD 0 0 = 0 := by decide
  have h2 : seedOut.n_exposed.getD 0 0 = 1 := by decide
  have h3 : seedOut.n_infectious.getD 0 0 = 1 := by decide
  have h4 : seedOut.n_recovered.getD 0 0 = 0 := by decide
  have h5 : seedOut.cum_deaths.getD 0 0 = 0 := by decide
  have h6 : seedOut.people.length = 1 := by decide
  refine ⟨rfl, h6, h1, h2, h3, h4, h5, ?_⟩
  rw [h1, h2, h3, h4, h5, h6]
  norm_num

/-- Claim C4, counterexample: the seed individual has exposure day 0 and
infectious day 0, so its infectious day is not strictly greater than its
exposure day. -/
theorem C4_counterexample :
    run gZero (mkSt seedPars) = .ok seedOut ∧
    (seedOut.people.getD 0 default).date_exposed = some 0 ∧
    (seedOut.people.getD 0 default).date_infectious = some 0 ∧
    ¬ (∃ e i, (seedOut.people.getD 0 default).date_exposed = some e ∧
        (seedOut.people.getD 0 default).date_infectious = some i ∧ e < i) := by
  refine ⟨rfl, by decide, by decide, ?_⟩
  rintro ⟨e, i, he, hi, hlt⟩
  have he' : e = 0 := by
    have : (seedOut.people.getD 0 default).date_exposed = some 0 := by decide
    rw [this] at he
    exact (Option.some.inj he).symm
  have hi' : i = 0 := by
    have : (seedOut.people.getD 0 default).date_infectious = some 0 := by decide
    rw [this] at hi
    exact (Option.some.inj hi).symm
  rw [he', hi'] at hlt
  exact Nat.lt_irrefl 0 hlt

/-- Claim C3, amended: the true per-day accounting identity of a
successful run.  The n_infectious row cannot appear in a partition —
infectious people are still counted exposed, and a person dying on day t
is still counted infectious that day — but susceptible + exposed +
recovered + cumulative deaths equals the scaled population plus the
same-day deaths and recoveries rows, for every day of the run. -/
theorem C3_amended (g : Nat → Nat) (σ : SimSt) (out : RunOut) (sc : ℚ)
    (h : run g σ = .ok out)
    (hsc : lookupPar σ.pars "scale" = .ok sc) :
    ∀ t, t < out.n_susceptible.length →
      out.n_susceptible.getD t 0 + out.n_exposed.getD t 0 +
        out.n_recovered.getD t 0 + out.cum_deaths.getD t 0 =
      qmul (out.people.length : ℚ) sc + out.deaths.getD t 0 +
        out.recoveries.getD t 0 := by
  obtain ⟨σ1, σ2, σ3, nd, sc', hinit, hip, hnd, hrun, hsc', hout⟩ :=
    run_shape g σ out h
  obtain ⟨A2, i1, i2, i3, i4, i5, ip⟩ := initPeople_inv g σ1 σ2 hip
  obtain ⟨_, _, _, hp1, _⟩ := initResults_shape σ σ1 hinit
  have hndσ : lookupPar σ.pars "n_days" = .ok nd := by
    rw [← hp1, ← ip]
    exact hnd
  obtain ⟨z1, z2, z3, z4, z5, _, _⟩ := initResults_rows σ σ1 nd hndσ hinit
  have hdc0 : dcount σ2.people = 0 :=
    List.countP_eq_zero.mpr
      (fun p hp => by rw [(A2 p hp).2]; exact bool_false_ne_true)
  obtain ⟨invF, hNF, persF, f1, f2, f3, f4, f5, zF, dF, serF⟩ :=
    runDays_cnt g σ2.people.length (qToNat nd + 1) (qToNat nd + 1) σ2 σ3
      hrun (fun p hp => (A2 p hp).1) rfl (i1.trans z1) (i2.trans z2)
      (i3.trans z3) (i4.trans z4) (i5.trans z5) (le_refl _)
  have hscp : lookupPar σ3.pars "scale" = lookupPar σ.pars "scale" := by
    rw [runDays_pars g (qToNat nd + 1) σ2 σ3 hrun "scale" (by decide),
      ip, hp1]
  have hsc2 : sc' = sc := by
    rw [hscp, hsc] at hsc'
    injection hsc' with hsc'
    exact hsc'.symm
  rw [hsc2] at hout
  subst hout
  intro t ht
  simp only [mkOut, List.length_map] at ht
  rw [f1] at ht
  have e1 : (mkOut σ3 sc).n_susceptible.getD t 0 =
      qmul (σ3.r_n_susceptible.getD t 0) sc :=
    getD_map_qmul sc _ t (by rw [f1]; exact ht)
  have e2 : (mkOut σ3 sc).n_exposed.getD t 0 =
      qmul (σ3.r_n_exposed.getD t 0) sc :=
    getD_map_qmul sc _ t (by rw [f2]; exact ht)
  have e3 : (mkOut σ3 sc).n_recovered.getD t 0 =
      qmul (σ3.r_n_recovered.getD t 0) sc :=
    getD_map_qmul sc _ t (by rw [f3]; exact ht)
  have e4 : (mkOut σ3 sc).recoveries.getD t 0 =
      qmul (σ3.r_recoveries.getD t 0) sc :=
    getD_map_qmul sc _ t (by rw [f4]; exact ht)
  have e5 : (mkOut σ3 sc).deaths.getD t 0 =
      qmul (σ3.r_deaths.getD t 0) sc :=
    getD_map_qmul sc _ t (by rw [f5]; exact ht)
  have e6 : (mkOut σ3 sc).cum_deaths.getD t 0 =
      qmul ((cumsum σ3.r_deaths).getD t 0) sc :=
    getD_map_qmul sc _ t (by rw [cumsum_len, f5]; exact ht)
  have e7 : (cumsum σ3.r_deaths).getD t 0 =
      0 + presum σ3.r_deaths (t + 1) :=
    cumsumFrom_getD _ t 0 (by rw [f5]; exact ht)
  have e8 : presum σ3.r_deaths (t + 1) =
      presum σ3.r_deaths t + σ3.r_deaths.getD t 0 := rfl
  have hser := serF t ht
  have hdc0c : (dcount σ2.people : ℚ) = 0 := by
    rw [hdc0]
    exact Nat.cast_zero
  rw [hdc0c] at hser
  unfold SER at hser
  have hNc : ((mkOut σ3 sc).people.length : ℚ) =
      (σ2.people.length : ℚ) := by
    show (σ3.people.length : ℚ) = _
    exact congrArg (fun n : Nat => (n : ℚ)) hNF
  rw [e1, e2, e3, e4, e5, e6, e7, e8, hNc]
  simp only [qmul_eq]
  linear_combination sc * hser

/-- Claim C3 witness: the amended identity holds on the concrete
one-seed run, at day 0. -/
theorem C3_witness :
    run gZero (mkSt seedPars) = .ok seedOut ∧
    lookupPar (mkSt seedPars).pars "scale" = .ok 1 ∧
    0 < seedOut.n_susceptible.length ∧
    seedOut.n_susceptible.getD 0 0 + seedOut.n_exposed.getD 0 0 +
      seedOut.n_recovered.getD 0 0 + seedOut.cum_deaths.getD 0 0 =
    qmul (seedOut.people.length : ℚ) 1 + seedOut.deaths.getD 0 0 +
      seedOut.recoveries.getD 0 0 :=
  ⟨rfl, by decide, by decide,
   C3_amended gZero (mkSt seedPars) seedOut 1 rfl (by decide) 0
     (by decide)⟩

/-- Claim C4, amended: the date inequalities that actually hold, for
every person of every successful run (seeds included): infectious day at
or after exposure day (equality is possible, so not strictly greater),
recovery day at or after infectious day, death day at or after exposure
day. -/
theorem C4_amended (g : Nat → Nat) (σ : SimSt) (out : RunOut)
    (h : run g σ = .ok out) :
    ∀ p ∈ out.people,
      (∀ e i', p.date_exposed = some e → p.date_infectious = some i' →
        e ≤ i') ∧
      (∀ r, p.date_recovered = some r →
        ∃ i', p.date_infectious = some i' ∧ i' ≤ r) ∧
      (∀ d, p.date_died = some d →
        ∃ e, p.date_exposed = some e ∧ e ≤ d) := by
  obtain ⟨σ1, σ2, σ3, nd, sc', hinit, hip, hnd, hrun, hsc', hout⟩ :=
    run_shape g σ out h
  obtain ⟨A2, i1, i2, i3, i4, i5, ip⟩ := initPeople_inv g σ1 σ2 hip
  obtain ⟨_, _, _, hp1, _⟩ := initResults_shape σ σ1 hinit
  have hndσ : lookupPar σ.pars "n_days" = .ok nd := by
    rw [← hp1, ← ip]
    exact hnd
  obtain ⟨z1, z2, z3, z4, z5, _, _⟩ := initResults_rows σ σ1 nd hndσ hinit
  obtain ⟨invF, _⟩ :=
    runDays_cnt g σ2.people.length (qToNat nd + 1) (qToNat nd + 1) σ2 σ3
      hrun (fun p hp => (A2 p hp).1) rfl (i1.trans z1) (i2.trans z2)
      (i3.trans z3) (i4.trans z4) (i5.trans z5) (le_refl _)
  subst hout
  intro p hp
  exact (invF p hp).2.2.2.2

/-- Claim C4 witness: the amended (weak) inequalities on the concrete
one-seed run, at the seed person, whose exposure and infectious days are
both 0. -/
theorem C4_witness :
    run gZero (mkSt seedPars) = .ok seedOut ∧
    (seedOut.people.getD 0 default).date_exposed = some 0 ∧
    (seedOut.people.getD 0 default).date_infectious = some 0 ∧
    (0 : Nat) ≤ 0 := by
  refine ⟨rfl, by decide, by decide, ?_⟩
  exact (C4_amended gZero (mkSt seedPars) seedOut rfl
    (seedOut.people.getD 0 default)
    (getD_mem _ _ _ (by decide))).1 0 0 (by decide) (by decide)

/-- Claim C2, amended: what infect_person actually guarantees.  At the
moment of exposure of a susceptible target, the exposure day is stamped
`t`, the infectious day is stamped with a sampled delay, and exactly one
terminal day is set — a death day (recovery day stays unset) or a
recovery day counted from the infectious day (death day stays unset).
Across a whole run of days these stamps never change once set.  The
seeds, by contrast, get no terminal day (see the counterexample). -/
theorem C2_amended (g : Nat → Nat) :
    (∀ (σ : SimSt) (srcUid tgtIdx t : Nat) (σ' : SimSt),
      (∀ p ∈ σ.people, PInv p) →
      tgtIdx < σ.people.length →
      (σ.people.getD tgtIdx default).susceptible = true →
      infectPerson g σ srcUid tgtIdx t = .ok σ' →
      ∃ di, (σ'.people.getD tgtIdx default).date_exposed = some t ∧
        (σ'.people.getD tgtIdx default).date_infectious = some (t + di) ∧
        ((∃ dd, (σ'.people.getD tgtIdx default).date_died =
            some (t + dd) ∧
          (σ'.people.getD tgtIdx default).date_recovered = none) ∨
         (∃ du, (σ'.people.getD tgtIdx default).date_recovered =
            some (t + di + du) ∧
          (σ'.people.getD tgtIdx default).date_died = none))) ∧
    (∀ (npts k : Nat) (σ σ' : SimSt), runDays g σ k = .ok σ' →
      (∀ p ∈ σ.people, PInv p) →
      σ.r_n_susceptible = List.replicate npts 0 →
      σ.r_n_exposed = List.replicate npts 0 →
      σ.r_n_recovered = List.replicate npts 0 →
      σ.r_recoveries = List.replicate npts 0 →
      σ.r_deaths = List.replicate npts 0 →
      k ≤ npts →
      ∀ j v,
        ((σ.people.getD j default).date_exposed = some v →
          (σ'.people.getD j default).date_exposed = some v) ∧
        ((σ.people.getD j default).date_infectious = some v →
          (σ'.people.getD j default).date_infectious = some v) ∧
        ((σ.people.getD j default).date_recovered = some v →
          (σ'.people.getD j default).date_recovered = some v) ∧
        ((σ.people.getD j default).date_died = some v →
          (σ'.people.getD j default).date_died = some v)) := by
  constructor
  · intro σ srcUid tgtIdx t σ' hOK hb hsus h
    obtain ⟨hexp0, hrec0, hinf0, hde, hdi, hdr, hdd⟩ :=
      (hOK _ (getD_mem _ _ _ hb)).1 hsus
    unfold infectPerson at h
    simp only [sampleDraw, btDraw, normalRoundDraw, drawNat] at h
    repeat' split at h
    all_goals cases h
    · rw [getD_set_self _ _ _ _ (by simpa using hb)]
      exact ⟨_, rfl, rfl, Or.inl ⟨_, rfl, hdr⟩⟩
    · rw [getD_set_self _ _ _ _ (by simpa using hb)]
      exact ⟨_, rfl, rfl, Or.inr ⟨_, rfl, hdd⟩⟩
  · intro npts k σ σ' h hOK hS hE hR hV hD hk j v
    obtain ⟨_, _, persF, _⟩ :=
      runDays_cnt g σ.people.length npts k σ σ' h hOK rfl hS hE hR hV hD
        hk
    exact ⟨(persF j).1 v, (persF j).2.1 v, (persF j).2.2.1 v,
      (persF j).2.2.2 v⟩

/-- A two-person fresh state over the demo parameters, for exercising
infect_person directly. -/
def c2st : SimSt :=
  { pars := demoPars,
    people := [{ uid := 0, age := 0, sex := 0 },
               { uid := 1, age := 0, sex := 0 }],
    rix := 0 }

/-- The state after infecting person 1 of `c2st` from person 0 on day
0. -/
def c2st' : SimSt :=
  match infectPerson gZero c2st 0 1 0 with
  | .ok s => s
  | .error _ => c2st

/-- Claim C2 witness: the amended atomic-stamping fact on a concrete
infection (cfr = 0, so the recovery branch is taken). -/
theorem C2_witness :
    infectPerson gZero c2st 0 1 0 = .ok c2st' ∧
    (∃ di, (c2st'.people.getD 1 default).date_exposed = some 0 ∧
      (c2st'.people.getD 1 default).date_infectious = some (0 + di) ∧
      ((∃ dd, (c2st'.people.getD 1 default).date_died = some (0 + dd) ∧
        (c2st'.people.getD 1 default).date_recovered = none) ∨
       (∃ du, (c2st'.people.getD 1 default).date_recovered =
          some (0 + di + du) ∧
        (c2st'.people.getD 1 default).date_died = none))) := by
  refine ⟨rfl, ?_⟩
  refine (C2_amended gZero).1 c2st 0 1 0 c2st' ?_ (by decide) (by decide)
    rfl
  intro p hp
  have hp' : p ∈ [({ uid := 0, age := 0, sex := 0 } : Person),
      { uid := 1, age := 0, sex := 0 }] := hp
  rcases List.mem_cons.mp hp' with h1 | hp2
  · subst h1
    exact pinv_fresh 0 0 0
  · rcases List.mem_cons.mp hp2 with h2 | h3
    · subst h2
      exact pinv_fresh 1 0 0
    · exact absurd h3 (List.not_mem_nil p)

/-- Claim C1, amended: what really happens to an infectious person whose
terminal day has arrived.  If the death day triggers, the person is
resolved (flags cleared, `died` set) and the death is counted — but the
person is still counted in n_infectious[t] and still enters the contact
path that day (death does not skip the recovery-else branch).  If only
the recovery day triggers, the person is resolved as recovered, the
recovery is counted, and no contact machinery runs: the n_infectious row
and the draw cursor are untouched. -/
theorem C1_amended (g : Nat → Nat) (t i : Nat) (σ σ' : SimSt)
    (hOK : ∀ p ∈ σ.people, PInv p) (hb : i < σ.people.length)
    (hexp : (σ.people.getD i default).exposed = true)
    (hinf : (σ.people.getD i default).infectious = true)
    (hti : t < σ.r_n_infectious.length)
    (htd : t < σ.r_deaths.length)
    (htv : t < σ.r_recoveries.length)
    (h : visitOne g t i σ = .ok σ') :
    (dateTrig (σ.people.getD i default).date_died t = true →
      (σ'.people.getD i default).died = true ∧
      (σ'.people.getD i default).exposed = false ∧
      (σ'.people.getD i default).infectious = false ∧
      σ'.r_deaths.getD t 0 = σ.r_deaths.getD t 0 + 1 ∧
      σ'.r_n_infectious.getD t 0 = σ.r_n_infectious.getD t 0 + 1) ∧
    (dateTrig (σ.people.getD i default).date_died t = false →
      dateTrig (σ.people.getD i default).date_recovered t = true →
      (σ'.people.getD i default).recovered = true ∧
      σ'.r_recoveries.getD t 0 = σ.r_recoveries.getD t 0 + 1 ∧
      σ'.r_n_infectious = σ.r_n_infectious ∧
      σ'.rix = σ.rix) := by
  have hp : PInv (σ.people.getD i default) := hOK _ (getD_mem _ _ _ hb)
  have hsusF : (σ.people.getD i default).susceptible = false := by
    cases hbv : (σ.people.getD i default).susceptible
    · rfl
    · obtain ⟨he0, _⟩ := hp.1 hbv
      rw [he0] at hexp
      exact Bool.noConfusion hexp
  have hrecF : (σ.people.getD i default).recovered = false := hp.2.1 hexp
  unfold visitOne at h
  dsimp only at h
  rw [if_neg (by simp only [hsusF]; exact bool_false_ne_true)] at h
  cases htp : tpStep σ (σ.people.getD i default) with
  | error e =>
    rw [htp] at h
    cases h
  | ok σa =>
    rw [htp] at h
    dsimp only at h
    obtain ⟨tp, rfl⟩ := tpStep_shape σ _ σa htp
    have he : expoStep t i { σ with testProbs := tp }
        (σ.people.getD i default) =
        (σ.people.getD i default,
         { σ with testProbs := tp,
                  r_n_exposed := bump σ.r_n_exposed t 1 }) := by
      unfold expoStep
      rw [if_pos hexp, if_neg (by simp only [hinf, Bool.not_true, Bool.false_and]; exact bool_false_ne_true)]
    rw [he] at h
    dsimp only at h
    rw [if_pos hinf] at h
    constructor
    · -- the death day triggers
      intro hdie
      unfold deathStep at h
      rw [if_pos hdie] at h
      dsimp only at h
      have hdr_none : (σ.people.getD i default).date_recovered = none := by
        rcases hp.2.2.2.1 with hdd | hdr
        · rw [hdd] at hdie
          exact Bool.noConfusion hdie
        · exact hdr
      have hrneg : ¬(dateTrig ({ σ.people.getD i default with exposed := false, infectious := false, recovered := false, died := true } : Person).date_recovered t = true) := by
        intro hx
        dsimp only at hx
        rw [hdr_none] at hx
        exact Bool.noConfusion hx
      unfold recovOrContacts at h
      rw [if_neg hrneg] at h
      simp only [ptDraw, drawNat] at h
      split at h
      · cases h
      · rename_i pσ3 hX
        split at hX
        · cases hX
        · split at hX
          · cases hX
          · rename_i σ3 hcl
            cases hX
            split at h
            · rename_i hxr
              exact absurd hxr (by simp)
            · cases h
              rw [chooseDraws_state] at hcl
              have c := contactLoop_cnt g t _ _ _ _ hcl
              have hgs : (σ.people.set i { σ.people.getD i default with exposed := false, infectious := false, recovered := false, died := true }).getD i default = { σ.people.getD i default with exposed := false, infectious := false, recovered := false, died := true } :=
                getD_set_self _ _ _ _ hb
              have hsuspd : ((σ.people.set i { σ.people.getD i default with exposed := false, infectious := false, recovered := false, died := true }).getD i default).susceptible = false := by
                rw [hgs]
                exact hsusF
              have hns := c.nonSusPres i hsuspd
              refine ⟨?_, ?_, ?_, ?_, ?_⟩
              · show (σ3.people.getD i default).died = true
                rw [hns]
                show ((σ.people.set i { σ.people.getD i default with exposed := false, infectious := false, recovered := false, died := true }).getD i default).died = true
                rw [hgs]
              · show (σ3.people.getD i default).exposed = false
                rw [hns]
                show ((σ.people.set i { σ.people.getD i default with exposed := false, infectious := false, recovered := false, died := true }).getD i default).exposed = false
                rw [hgs]
              · show (σ3.people.getD i default).infectious = false
                rw [hns]
                show ((σ.people.set i { σ.people.getD i default with exposed := false, infectious := false, recovered := false, died := true }).getD i default).infectious = false
                rw [hgs]
              · show σ3.r_deaths.getD t 0 = σ.r_deaths.getD t 0 + 1
                rw [c.deaths]
                exact bump_getD_self _ _ _ htd
              · show σ3.r_n_infectious.getD t 0 =
                  σ.r_n_infectious.getD t 0 + 1
                rw [c.ninf]
                exact bump_getD_self _ _ _ hti
    · -- only the recovery day triggers
      intro hdie hrec
      unfold deathStep at h
      rw [if_neg (by intro hx; rw [hdie] at hx; exact Bool.noConfusion hx)] at h
      dsimp only at h
      unfold recovOrContacts at h
      rw [if_pos hrec] at h
      dsimp only at h
      split at h
      · cases h
        refine ⟨?_, ?_, rfl, rfl⟩
        · show ((σ.people.set i { σ.people.getD i default with exposed := false, infectious := false, recovered := true }).getD i default).recovered = true
          rw [getD_set_self _ _ _ _ hb]
        · show (bump σ.r_recoveries t 1).getD t 0 =
            σ.r_recoveries.getD t 0 + 1
          exact bump_getD_self _ _ _ htv
      · rename_i hxr
        exact absurd rfl hxr

/-- An infectious person whose death day is day 1. -/
def pDoom : Person :=
  { uid := 0, age := 0, sex := 0, susceptible := false, exposed := true,
    infectious := true, date_exposed := some 0, date_infectious := some 0,
    date_died := some 1 }

/-- A one-person state about to process `pDoom` on day 1. -/
def c1vin : SimSt :=
  { pars := demoPars, people := [pDoom], rix := 0,
    r_n_susceptible := List.replicate 2 0,
    r_n_exposed := List.replicate 2 0,
    r_n_infectious := List.replicate 2 0,
    r_n_recovered := List.replicate 2 0,
    r_infections := List.replicate 2 0, r_tests := List.replicate 2 0,
    r_diagnoses := List.replicate 2 0,
    r_recoveries := List.replicate 2 0,
    r_deaths := List.replicate 2 0 }

/-- The state after visiting `pDoom` on day 1. -/
def c1vout : SimSt :=
  match visitOne gZero 1 0 c1vin with
  | .ok s => s
  | .error _ => c1vin

/-- Claim C1 witness: on the concrete visit, the person dying on day 1
is resolved, yet counted in n_infectious[1]. -/
theorem C1_witness :
    visitOne gZero 1 0 c1vin = .ok c1vout ∧
    dateTrig (c1vin.people.getD 0 default).date_died 1 = true ∧
    ((c1vout.people.getD 0 default).died = true ∧
     (c1vout.people.getD 0 default).exposed = false ∧
     (c1vout.people.getD 0 default).infectious = false ∧
     c1vout.r_deaths.getD 1 0 = c1vin.r_deaths.getD 1 0 + 1 ∧
     c1vout.r_n_infectious.getD 1 0 =
       c1vin.r_n_infectious.getD 1 0 + 1) := by
  have hpD : PInv pDoom :=
    ⟨fun hx => Bool.noConfusion hx, fun _ => rfl, fun _ => rfl,
     Or.inr rfl,
     fun e i' he hi => by
       injection he with he
       injection hi with hi
       omega,
     fun r hr => Option.noConfusion hr,
     fun d hd => by
       injection hd with hd
       exact ⟨0, rfl, by omega⟩⟩
  refine ⟨rfl, by decide, ?_⟩
  exact (C1_amended gZero 1 0 c1vin c1vout
    (by
      intro p hp
      rw [show c1vin.people = [pDoom] from rfl, List.mem_singleton] at hp
      subst hp
      exact hpD)
    (by decide) (by decide) (by decide) (by decide) (by decide)
    (by decide) rfl).1 (by decide)

/-- Claim C6: with intervene day 10, efficacy one half and unintervene
day 20, after completing day t the contacts parameter equals half its
original value exactly for t in 10..19 and is exactly restored (the
divide-back is exact on rationals) from day 20 onward; no other
intervention window ever fires, and the other intervention keys keep
their values.  Day t here is the state after day t's updates: the
parameter is scaled at the end of day 10 and restored at the end of
day 20, matching the source order of the intervention block. -/
theorem C6_intervention (g : Nat → Nat) (σ : SimSt) (c : ℚ)
    (hiv : lookupPar σ.pars "intervene" = .ok 10)
    (huv : lookupPar σ.pars "unintervene" = .ok 20)
    (heff : lookupPar σ.pars "intervention_eff" = .ok (1 / 2))
    (hco : lookupPar σ.pars "contacts" = .ok c) :
    ∀ t σ', runDays g σ (t + 1) = .ok σ' →
      lookupPar σ'.pars "intervene" = .ok 10 ∧
      lookupPar σ'.pars "unintervene" = .ok 20 ∧
      lookupPar σ'.pars "intervention_eff" = .ok (1 / 2) ∧
      lookupPar σ'.pars "contacts" =
        .ok (if 10 ≤ t ∧ t ≤ 19 then c / 2 else c) := by
  intro t
  induction t with
  | zero =>
    intro σ' h
    unfold runDays at h
    split at h
    · cases h
    · rename_i σmid hmid
      cases hmid
      have hd := dayStep_pars g σ 0 σ' h
      have hc := hd.2 10 20 (1 / 2) c hiv huv heff hco
      rw [if_neg (by norm_num), if_neg (by norm_num)] at hc
      refine ⟨?_, ?_, ?_, ?_⟩
      · rw [hd.1 _ (by decide)]; exact hiv
      · rw [hd.1 _ (by decide)]; exact huv
      · rw [hd.1 _ (by decide)]; exact heff
      · rw [hc, if_neg (by omega)]
  | succ t ih =>
    intro σ' h
    unfold runDays at h
    split at h
    · cases h
    · rename_i σmid hmid
      obtain ⟨h1, h2, h3, h4⟩ := ih σmid hmid
      have hd := dayStep_pars g σmid (t + 1) σ' h
      have hc := hd.2 10 20 (1 / 2)
        (if 10 ≤ t ∧ t ≤ 19 then c / 2 else c) h1 h2 h3 h4
      refine ⟨?_, ?_, ?_, ?_⟩
      · rw [hd.1 _ (by decide)]; exact h1
      · rw [hd.1 _ (by decide)]; exact h2
      · rw [hd.1 _ (by decide)]; exact h3
      · rw [hc]
        have hq2 : qsub 1 (1 / 2 : ℚ) = 1 / 2 := by
          rw [qsub_eq]; norm_num
        by_cases h10 : t + 1 = 10
        · have hcast : ((t + 1 : ℕ) : ℚ) = 10 := by
            exact_mod_cast congrArg (fun n : ℕ => (n : ℚ)) h10
          rw [if_neg (by rw [hcast]; norm_num), if_pos hcast,
            if_neg (by omega), if_pos (by omega), hq2, qmul_eq]
          ring_nf
        · by_cases h20 : t + 1 = 20
          · have hcast : ((t + 1 : ℕ) : ℚ) = 20 := by
              exact_mod_cast congrArg (fun n : ℕ => (n : ℚ)) h20
            rw [if_pos hcast, if_neg (by rw [hcast]; norm_num),
              if_pos (by omega), if_neg (by omega), hq2, qdiv_eq]
            ring_nf
          · have hc10 : ((t + 1 : ℕ) : ℚ) ≠ 10 := by
              intro hx
              exact h10 (by exact_mod_cast hx)
            have hc20 : ((t + 1 : ℕ) : ℚ) ≠ 20 := by
              intro hx
              exact h20 (by exact_mod_cast hx)
            rw [if_neg hc20, if_neg hc10]
            by_cases hin : 10 ≤ t + 1 ∧ t + 1 ≤ 19
            · rw [if_pos (by omega), if_pos hin]
            · rw [if_neg (by omega), if_neg hin]

/-- Claim C6 witness: the concrete scenario run over 26 days with one
susceptible person; after day 10 the contacts parameter reads half of
20, and after day 20 it reads 20 again. -/
theorem C6_witness :
    (∃ σ', runDays gZero (mkSt c6pars) 11 = .ok σ' ∧
      lookupPar σ'.pars "contacts" =
        .ok (if 10 ≤ 10 ∧ 10 ≤ 19 then (20 : ℚ) / 2 else 20)) ∧
    (∃ σ', runDays gZero (mkSt c6pars) 21 = .ok σ' ∧
      lookupPar σ'.pars "contacts" =
        .ok (if 10 ≤ 20 ∧ 20 ≤ 19 then (20 : ℚ) / 2 else 20)) := by
  have heff : lookupPar (mkSt c6pars).pars "intervention_eff" =
      .ok (1 / 2) := by
    have hm : lookupPar (mkSt c6pars).pars "intervention_eff" =
        .ok (mkRat 1 2) := by decide
    have he : (mkRat 1 2 : ℚ) = 1 / 2 := by
      rw [Rat.mkRat_eq_div]
      norm_num
    rw [he] at hm
    exact hm
  constructor
  · cases hok : runDays gZero (mkSt c6pars) 11 with
    | error e =>
      have hisok : (runDays gZero (mkSt c6pars) 11).isOk = true := by decide
      rw [hok] at hisok
      exact Bool.noConfusion hisok
    | ok σ' =>
      exact ⟨σ', rfl,
        (C6_intervention gZero (mkSt c6pars) 20 (by decide) (by decide)
          heff (by decide) 10 σ' hok).2.2.2⟩
  · cases hok : runDays gZero (mkSt c6pars) 21 with
    | error e =>
      have hisok : (runDays gZero (mkSt c6pars) 21).isOk = true := by decide
      rw [hok] at hisok
      exact Bool.noConfusion hisok
    | ok σ' =>
      exact ⟨σ', rfl,
        (C6_intervention gZero (mkSt c6pars) 20 (by decide) (by decide)
          heff (by decide) 20 σ' hok).2.2.2⟩

end Covasim
